import Mathlib

/-!
# restfulsql: parsing and compiling `[mode, fields, values]` query triples

A shallow embedding of `restfulsql.go`.  Go values of type `interface{}` produced by
`encoding/json` are modelled by `JVal`; slices that the Go code mutates in place are
passed through the functions as explicit state; a Go run-time panic is the outcome
`Fault.panic`, distinct from the two error values the package returns.
-/

namespace Restfulsql

/-! ## Decoded JSON values -/

/-- A JSON number as `encoding/json` decodes it into an `interface{}`: a `float64`.
The package never computes with numbers, it only prints them with the verb `%v`, so a
number is carried by the text `fmt` prints for it (`2` for `2.0`, `1e+06` for `1000000`);
that text identifies a finite `float64`. -/
structure Float64 where
  text : String
deriving DecidableEq, Repr

/-- The dynamic values `encoding/json` stores in an `interface{}`: `nil`, `bool`, `float64`,
`string`, `[]interface{}` and `map[string]interface{}` (entries listed in key order, the
order in which `fmt` prints a map). -/
inductive JVal where
  | null
  | bool (b : Bool)
  | num (n : Float64)
  | str (s : String)
  | arr (xs : List JVal)
  | obj (kvs : List (String × JVal))
deriving Repr

/-- The two error values of the package, the errors of `encoding/json`, and a run-time
panic (failed type assertion, index out of range, `reflect` call on a wrong kind, nil
dereference). -/
inductive Fault where
  | ErrInvalidRestfulSQL
  | ErrNumOfFieldAndValueMismatch
  | jsonError
  | panic
deriving DecidableEq, Repr

/-! ## The parts of `fmt` and `reflect` the package relies on -/

/-- The text of `fmt.Sprintf("%T", x)`. -/
def typeName : JVal → String
  | .null => "<nil>"
  | .bool _ => "bool"
  | .num _ => "float64"
  | .str _ => "string"
  | .arr _ => "[]interface {}"
  | .obj _ => "map[string]interface {}"

mutual
/-- The text of `fmt.Sprintf("%v", x)`. -/
def fmtV : JVal → String
  | .null => "<nil>"
  | .bool b => if b then "true" else "false"
  | .num n => n.text
  | .str s => s
  | .arr xs => "[" ++ fmtVElems xs ++ "]"
  | .obj kvs => "map[" ++ fmtVEntries kvs ++ "]"
/-- Elements of a slice under `%v`, separated by one space. -/
def fmtVElems : List JVal → String
  | [] => ""
  | [x] => fmtV x
  | x :: y :: rest => fmtV x ++ " " ++ fmtVElems (y :: rest)
/-- Entries of a map under `%v`, `key:value` separated by one space. -/
def fmtVEntries : List (String × JVal) → String
  | [] => ""
  | [(k, x)] => k ++ ":" ++ fmtV x
  | (k, x) :: e :: rest => k ++ ":" ++ fmtV x ++ " " ++ fmtVEntries (e :: rest)
end

mutual
/-- The text `fmt` prints under the verb `%s` for a value found inside a slice or a map:
a nil element prints as `<nil>`, a string as itself, and a `bool` or `float64` as the
bad-verb form `%!s(type=value)`. -/
def fmtSInner : JVal → String
  | .null => "<nil>"
  | .bool b => "%!s(bool=" ++ (if b then "true" else "false") ++ ")"
  | .num n => "%!s(float64=" ++ n.text ++ ")"
  | .str s => s
  | .arr xs => "[" ++ fmtSElems xs ++ "]"
  | .obj kvs => "map[" ++ fmtSEntries kvs ++ "]"
/-- Elements of a slice under `%s`, separated by one space. -/
def fmtSElems : List JVal → String
  | [] => ""
  | [x] => fmtSInner x
  | x :: y :: rest => fmtSInner x ++ " " ++ fmtSElems (y :: rest)
/-- Entries of a map under `%s`. -/
def fmtSEntries : List (String × JVal) → String
  | [] => ""
  | [(k, x)] => k ++ ":" ++ fmtSInner x
  | (k, x) :: e :: rest => k ++ ":" ++ fmtSInner x ++ " " ++ fmtSEntries (e :: rest)
end

/-- The text of `fmt.Sprintf("%s", x)`: as `fmtSInner`, except that a nil operand is
reported as `%!s(<nil>)`. -/
def fmtS : JVal → String
  | .null => "%!s(<nil>)"
  | x => fmtSInner x

/-! ## The expression record and the parser -/

/-- The Go struct `RSQL`.  The fields `refFields` and `refValues` are `reflect` views of
`Fields` and `Values`, read only to take the two lengths, and are not repeated here. -/
structure RSQL where
  Mode : String
  Fields : List JVal
  Values : List JVal
  refFieldsLength : Nat
  refValuesLength : Nat
  nestedRSQLCount : Nat
  nestedRSQLIndexes : List Nat
deriving Repr

/-- The zero value of `RSQL`, what a freshly allocated `*RSQL` points to. -/
def RSQL.zero : RSQL :=
  { Mode := "", Fields := [], Values := [], refFieldsLength := 0, refValuesLength := 0,
    nestedRSQLCount := 0, nestedRSQLIndexes := [] }

/-- The text held in `rawQuery` as `encoding/json` sees it: not valid JSON, or the value
it decodes to. -/
inductive RawJSON where
  | malformed
  | value (v : JVal)
deriving Repr

/-- The Go struct `Parser`; `Query` is a pointer, `none` is the nil pointer. -/
structure Parser where
  Query : Option RSQL
  rawQuery : RawJSON
deriving Repr

/-- Go `NewRestfulSQLParser`: a parser holding the raw query, `Query` not yet set. -/
def NewRestfulSQLParser (query : RawJSON) : Parser :=
  { Query := none, rawQuery := query }

/-- Go `(*RSQL).checkLength`: the error returned, `none` for nil. -/
def checkLength (r : RSQL) : Option Fault :=
  if r.refFieldsLength ≠ r.refValuesLength then some .ErrNumOfFieldAndValueMismatch else none

/-- Go `containsType(fields, t)` with `t` given by its name `t.String()`: some element of
`fields` has a `%T` text equal to it. -/
def containsType (fields : List JVal) (t : String) : Bool :=
  fields.any fun v => typeName v == t

/-- The loop of `findNestedRSQL` from index `i` on, with the running count and index
list. -/
def findNestedLoop : Nat → Nat → List Nat → List JVal → Nat × List Nat
  | _, nestedFieldCount, nestedFieldIndexes, [] => (nestedFieldCount, nestedFieldIndexes)
  | i, nestedFieldCount, nestedFieldIndexes, x :: rest =>
    match x with
    | .arr v =>
      if containsType v "[]interface {}" then
        findNestedLoop (i + 1) (nestedFieldCount + 1) (nestedFieldIndexes ++ [i]) rest
      else findNestedLoop (i + 1) nestedFieldCount nestedFieldIndexes rest
    | _ => findNestedLoop (i + 1) nestedFieldCount nestedFieldIndexes rest

/-- Go `findNestedRSQL(fields)`.  `reflect.Value.Len` panics on nil, `bool` and `float64`;
on a string it is the byte length and every `Index(i)` is a byte, never a slice; on a map
`Index` panics as soon as the loop body runs. -/
def findNestedRSQL : JVal → Except Fault (Nat × List Nat)
  | .arr xs => .ok (findNestedLoop 0 0 [] xs)
  | .str _ => .ok (0, [])
  | .obj [] => .ok (0, [])
  | .obj (_ :: _) => .error .panic
  | _ => .error .panic

/-- Go `unmarshalToRSQLStruct(raw)`: the length check, the three type assertions, then
the two lengths and the detector's result. -/
def unmarshalToRSQLStruct (raw : List JVal) : Except Fault RSQL :=
  if raw.length ≠ 3 then .error .ErrInvalidRestfulSQL
  else
    match (raw[0]? : Option JVal) with
    | some (.str mode) =>
      match (raw[1]? : Option JVal) with
      | some (.arr fields) =>
        match (raw[2]? : Option JVal) with
        | some (.arr values) =>
          match findNestedRSQL (.arr fields) with
          | .ok (count, indexes) =>
            .ok { Mode := mode, Fields := fields, Values := values,
                  refFieldsLength := fields.length, refValuesLength := values.length,
                  nestedRSQLCount := count, nestedRSQLIndexes := indexes }
          | .error e => .error e
        | _ => .error .ErrInvalidRestfulSQL
      | _ => .error .ErrInvalidRestfulSQL
    | _ => .error .ErrInvalidRestfulSQL

/-- One iteration of the loop of `buildString`: the entry `queries[i]` for the field `v`
and the value `valuesSlice[i]`. -/
def buildQuery (v value : JVal) : Except Fault String :=
  if typeName value == "string" then
    match value with
    | .str valueStr =>
      if valueStr == "" then .ok ("(" ++ fmtS v ++ ")")
      else .ok ("(" ++ fmtV v ++ " = '" ++ fmtV (.str valueStr) ++ "')")
    | _ => .error .panic
  else .ok ("(" ++ fmtV v ++ " = " ++ fmtV value ++ ")")

/-- The loop of `buildString` from index `i` on; `valuesSlice[i]` out of range panics. -/
def buildQueries (valuesSlice : List JVal) : Nat → List JVal → Except Fault (List String)
  | _, [] => .ok []
  | i, v :: rest =>
    match (valuesSlice[i]? : Option JVal) with
    | none => .error .panic
    | some value =>
      match buildQuery v value with
      | .error e => .error e
      | .ok q =>
        match buildQueries valuesSlice (i + 1) rest with
        | .error e => .error e
        | .ok qs => .ok (q :: qs)

/-- Go `buildString(mode, fields, values)`; both callers pass `[]interface{}` values, so the
two type assertions at its head succeed. -/
def buildString (mode : String) (fields values : List JVal) : Except Fault String :=
  match buildQueries values 0 fields with
  | .error e => .error e
  | .ok queries => .ok (String.intercalate (" " ++ mode ++ " ") queries)

/-! ## Flattening

`falttenNestedRSQL` overwrites slots of the slice it is given, and its recursive call
overwrites slots of a slice nested inside; the functions below return the slice as it
stands when the call ends, together with the error (`none` for nil).  The recursion is
bounded by a fuel counter; `none` as a whole result means the fuel ran out. -/

/-- The body of the `for` loop of `falttenNestedRSQL` for the index `v`, `recur` being the
recursive call. -/
def flattenBody (recur : JVal → List Nat → Option (JVal × Option Fault))
    (fieldsSlice : List JVal) (v : Nat) : Option (List JVal × Option Fault) :=
  match (fieldsSlice[1]? : Option JVal) with
  | some (.arr targetingFields) =>
    match (targetingFields[v]? : Option JVal) with
    | none => some (fieldsSlice, some .panic)
    | some tv =>
      match findNestedRSQL tv with
      | .error e => some (fieldsSlice, some e)
      | .ok (count, indexes) =>
        match (if count > 0 then recur tv indexes else some (tv, none)) with
        | none => none
        | some (tv1, err) =>
          let targetingFields1 := targetingFields.set v tv1
          let fieldsSlice1 := fieldsSlice.set 1 (.arr targetingFields1)
          match err with
          | some e => some (fieldsSlice1, some e)
          | none =>
            match unmarshalToRSQLStruct targetingFields1 with
            | .error e => some (fieldsSlice1, some e)
            | .ok rsql =>
              match checkLength rsql with
              | some e => some (fieldsSlice1, some e)
              | none =>
                match buildString rsql.Mode rsql.Fields rsql.Values with
                | .error e => some (fieldsSlice1, some e)
                | .ok str =>
                  if v < fieldsSlice1.length then some (fieldsSlice1.set v (.str str), none)
                  else some (fieldsSlice1, some .panic)
  | _ => some (fieldsSlice, some .panic)

/-- The `for` loop of `falttenNestedRSQL` over the index list, stopping at the first
error. -/
def flattenRange (recur : JVal → List Nat → Option (JVal × Option Fault)) :
    List JVal → List Nat → Option (List JVal × Option Fault)
  | fieldsSlice, [] => some (fieldsSlice, none)
  | fieldsSlice, v :: rest =>
    match flattenBody recur fieldsSlice v with
    | none => none
    | some (fieldsSlice1, some e) => some (fieldsSlice1, some e)
    | some (fieldsSlice1, none) => flattenRange recur fieldsSlice1 rest

/-- Go `falttenNestedRSQL(fields, nestedFieldsIndexes)`; the assertion
`fields.([]interface{})` panics on anything but a slice. -/
def falttenNestedRSQL : Nat → JVal → List Nat → Option (JVal × Option Fault)
  | 0, _, _ => none
  | fuel + 1, .arr fieldsSlice, nestedFieldsIndexes =>
    match flattenRange (falttenNestedRSQL fuel) fieldsSlice nestedFieldsIndexes with
    | none => none
    | some (fieldsSlice1, err) => some (.arr fieldsSlice1, err)
  | _ + 1, fields, _ => some (fields, some .panic)

mutual
/-- Depth of array nesting of a value. -/
def jdepth : JVal → Nat
  | .arr xs => jdepthList xs + 1
  | _ => 0
/-- The largest depth among the elements of a slice. -/
def jdepthList : List JVal → Nat
  | [] => 0
  | x :: rest => max (jdepth x) (jdepthList rest)
end

/-! ## `Parse` and `Compile` -/

/-- Go `json.Unmarshal([]byte(r.rawQuery), &r.Query)` with `(*RSQL).UnmarshalJSON`.  Text
that is not valid JSON is rejected before anything is stored; the literal `null` sets the
pointer to nil; for any other value a nil `Query` is first made to point to a new zero
`RSQL`, then `UnmarshalJSON` runs: decoding into `[]interface{}` fails unless the value is
an array, and the receiver is assigned only when `unmarshalToRSQLStruct` succeeds. -/
def jsonUnmarshal (r : Parser) : Parser × Option Fault :=
  match r.rawQuery with
  | .malformed => (r, some .jsonError)
  | .value .null => ({ r with Query := none }, none)
  | .value (.arr raw) =>
    match unmarshalToRSQLStruct raw with
    | .error e => ({ r with Query := some (r.Query.getD RSQL.zero) }, some e)
    | .ok parsedRSQL => ({ r with Query := some parsedRSQL }, none)
  | .value _ => ({ r with Query := some (r.Query.getD RSQL.zero) }, some .jsonError)

/-- Go `(*Parser).Parse`: the parser after the call and the pair `(*RSQL, error)` returned,
an error standing for `(nil, err)`. -/
def Parse (r : Parser) : Parser × Except Fault RSQL :=
  match jsonUnmarshal r with
  | (r1, some e) => (r1, .error e)
  | (r1, none) =>
    match r1.Query with
    | none => (r1, .error .panic)
    | some q =>
      match checkLength q with
      | some e => (r1, .error e)
      | none => (r1, .ok q)

/-- Go `(*Parser).Compile`: the parser after the call (its `Query.Fields` as flattening left
them) and the pair `(string, error)` returned; a nil `Query` is a nil dereference.  The
fuel handed to the flattening is the nesting depth of `Fields` plus one.  The last branch
is never taken: flattening a slice hands back a slice. -/
def Compile (r : Parser) : Option (Parser × Except Fault String) :=
  match r.Query with
  | none => some (r, .error .panic)
  | some q =>
    match falttenNestedRSQL (jdepth (.arr q.Fields) + 1) (.arr q.Fields) q.nestedRSQLIndexes with
    | none => none
    | some (.arr fields1, err) =>
      let r1 : Parser := { r with Query := some { q with Fields := fields1 } }
      match err with
      | some e => some (r1, .error e)
      | none =>
        match buildString q.Mode fields1 q.Values with
        | .error e => some (r1, .error e)
        | .ok s => some (r1, .ok s)
    | some (_, _) => some (r, .error .panic)

/-- The pipeline on a raw query: `Parse` on a fresh parser followed, when it succeeds, by
`Compile` on the same parser. -/
def parseAndCompile (query : RawJSON) : Option (Except Fault String) :=
  match Parse (NewRestfulSQLParser query) with
  | (_, .error e) => some (.error e)
  | (r1, .ok _) =>
    match Compile r1 with
    | none => none
    | some (_, res) => some res

/-! ## Reference definitions, following the specification -/

/-- Equality of outcomes is decidable, so that closed facts can be evaluated. -/
instance instDecidableEqExcept {ε α : Type} [DecidableEq ε] [DecidableEq α] :
    DecidableEq (Except ε α)
  | .ok a, .ok b => if h : a = b then isTrue (h ▸ rfl) else isFalse (fun h1 => h (Except.ok.inj h1))
  | .error a, .error b =>
    if h : a = b then isTrue (h ▸ rfl) else isFalse (fun h1 => h (Except.error.inj h1))
  | .ok _, .error _ => isFalse (fun h => Except.noConfusion h)
  | .error _, .ok _ => isFalse (fun h => Except.noConfusion h)

/-- The value is a JSON string. -/
def JVal.isString : JVal → Bool
  | .str _ => true
  | _ => false

/-- The value is a JSON array. -/
def JVal.isArray : JVal → Bool
  | .arr _ => true
  | _ => false

/-- The value is a JSON scalar: null, a boolean, a number or a string. -/
def JVal.isScalar : JVal → Bool
  | .arr _ => false
  | .obj _ => false
  | _ => true

/-- Element `i` of `raw` exists and satisfies `p`. -/
def elemIs (p : JVal → Bool) (raw : List JVal) (i : Nat) : Bool :=
  match (raw[i]? : Option JVal) with
  | some x => p x
  | none => false

/-- The structural defect of section 4.1: `raw` does not have exactly 3 elements, or its
element 0 is not a string, or its element 1 or 2 is not an array. -/
def invalidStructure (raw : List JVal) : Prop :=
  raw.length ≠ 3 ∨ elemIs JVal.isString raw 0 = false ∨ elemIs JVal.isArray raw 1 = false ∨
    elemIs JVal.isArray raw 2 = false

/-- The classification rule of section 4.2: the entry is an array with at least one
element that is itself an array. -/
def classifiedNested : JVal → Bool
  | .arr v => v.any JVal.isArray
  | _ => false

/-- The indexes `i + j` of the entries `xs[j]` that the rule of section 4.2 classifies as
nested, in increasing order. -/
def nestedFrom : Nat → List JVal → List Nat
  | _, [] => []
  | i, x :: rest =>
    if classifiedNested x then i :: nestedFrom (i + 1) rest else nestedFrom (i + 1) rest

mutual
/-- The `Expression` of the data model (section 3). -/
inductive Expression where
  | mk (mode : String) (fields : List FieldEntry) (values : List JVal)
/-- The `FieldEntry` of the data model: a field name or an embedded expression. -/
inductive FieldEntry where
  | Leaf (name : String)
  | Nested (e : Expression)
end

mutual
/-- The JSON value an expression tree is written as: `[mode, fields, values]`. -/
def Expression.toJSON : Expression → JVal
  | .mk mode fields values => .arr [.str mode, .arr (FieldEntry.listToJSON fields), .arr values]
/-- The JSON value of one field entry. -/
def FieldEntry.toJSON : FieldEntry → JVal
  | .Leaf name => .str name
  | .Nested e => e.toJSON
/-- The JSON values of a list of field entries. -/
def FieldEntry.listToJSON : List FieldEntry → List JVal
  | [] => []
  | f :: rest => f.toJSON :: FieldEntry.listToJSON rest
end

mutual
/-- Well-formedness of a tree at every level: as many values as fields, every value a
scalar, and the value paired with a nested expression the empty string. -/
def Expression.wellFormed : Expression → Bool
  | .mk _ fields values => FieldEntry.pairsWellFormed fields values
/-- Well-formedness of the paired field and value lists. -/
def FieldEntry.pairsWellFormed : List FieldEntry → List JVal → Bool
  | [], [] => true
  | .Leaf _ :: fs, v :: vs => v.isScalar && FieldEntry.pairsWellFormed fs vs
  | .Nested e :: fs, v :: vs =>
    (match v with
      | .str s => s == ""
      | _ => false) && e.wellFormed && FieldEntry.pairsWellFormed fs vs
  | _, _ => false
end

/-- The per-position rule of section 4.4 for a field name `f`: `(f)` for the empty string,
`(f = 'v')` for another string, `(f = v)` with the default rendering otherwise. -/
def specLeafFragment (f : String) : JVal → String
  | .str s => if s = "" then "(" ++ f ++ ")" else "(" ++ f ++ " = '" ++ s ++ "')"
  | v => "(" ++ f ++ " = " ++ fmtV v ++ ")"

mutual
/-- The reference rendering of an expression: its fragments joined by the mode. -/
def specRender : Expression → String
  | .mk mode fields values => String.intercalate (" " ++ mode ++ " ") (specFragments fields values)
/-- The fragment of one position: the leaf rule, or the nested rendering in parentheses. -/
def specFragment : FieldEntry → JVal → String
  | .Leaf f, v => specLeafFragment f v
  | .Nested c, _ => "(" ++ specRender c ++ ")"
/-- The fragments of the paired field and value lists, in order. -/
def specFragments : List FieldEntry → List JVal → List String
  | f :: fs, v :: vs => specFragment f v :: specFragments fs vs
  | _, _ => []
end

/-- The record `unmarshalToRSQLStruct` builds from `[mode, fields, values]`. -/
def decodedRSQL (mode : String) (fields values : List JVal) : RSQL :=
  { Mode := mode, Fields := fields, Values := values,
    refFieldsLength := fields.length, refValuesLength := values.length,
    nestedRSQLCount := (findNestedLoop 0 0 [] fields).1,
    nestedRSQLIndexes := (findNestedLoop 0 0 [] fields).2 }

/-! ## Concrete inputs -/

/-- The JSON number whose `%v` text is `t`. -/
def jnum (t : String) : JVal := .num { text := t }

/-- The tree `["AND", [["OR",["c"],[2]], ["OR",["d"],[3]]], ["",""]]`: two nested
expressions, at indexes 0 and 1. -/
def twoNested : Expression :=
  .mk "AND" [.Nested (.mk "OR" [.Leaf "c"] [jnum "2"]), .Nested (.mk "OR" [.Leaf "d"] [jnum "3"])]
    [.str "", .str ""]

/-- The tree `["AND", [["OR",["c"],[2]], "a"], ["", 1]]`: one nested expression, at index
0, followed by a field name. -/
def nestedAtZero : Expression :=
  .mk "AND" [.Nested (.mk "OR" [.Leaf "c"] [jnum "2"]), .Leaf "a"] [.str "", jnum "1"]

/-- The value `["AND", [["OR",["c"],[]], ["OR",["d"],[2]]], ["",""]]`: the nested triple at
index 0 has one field and no value. -/
def mismatchAtZero : JVal :=
  .arr [.str "AND",
    .arr [.arr [.str "OR", .arr [.str "c"], .arr []],
          .arr [.str "OR", .arr [.str "d"], .arr [jnum "2"]]],
    .arr [.str "", .str ""]]

/-- The value `["AND", ["a", [["c"]]], [1, ""]]`: the entry at index 1 is an array holding
an array, but has a single element. -/
def looksNested : JVal :=
  .arr [.str "AND", .arr [.str "a", .arr [.arr [.str "c"]]], .arr [jnum "1", .str ""]]

/-- The entry `["AND", ["b", ["OR", ["c"], [2]]], [2]]` of the query in `TestParse`: two
fields, one value. -/
def nestedMismatchEntry : List JVal :=
  [.str "AND", .arr [.str "b", .arr [.str "OR", .arr [.str "c"], .arr [jnum "2"]]],
    .arr [jnum "2"]]

/-- The query of `TestParse`: `["AND", ["a", ["AND", ["b", ["OR", ["c"], [2]]], [2]]], [10, ""]]`. -/
def parseTestQuery : List JVal :=
  [.str "AND", .arr [.str "a", .arr nestedMismatchEntry], .arr [jnum "10", .str ""]]

/-- The three-level query of `TestCompile`:
`["AND", ["a", ["AND", ["b", ["OR", ["c","d"], [2,3]]], [2,""]]], [10, ""]]`. -/
def threeLevels : JVal :=
  .arr [.str "AND",
    .arr [.str "a",
      .arr [.str "AND",
        .arr [.str "b", .arr [.str "OR", .arr [.str "c", .str "d"], .arr [jnum "2", jnum "3"]]],
        .arr [jnum "2", .str ""]]],
    .arr [jnum "10", .str ""]]

/-- The value `["AND", ["a"], []]`: one field, no value. -/
def lengthMismatch : JVal :=
  .arr [.str "AND", .arr [.str "a"], .arr []]

/-- The fields `["b", ["OR", ["c"], [2]]]` of the second query of `TestCompile`. -/
def oneNestedFields : List JVal :=
  [.str "b", .arr [.str "OR", .arr [.str "c"], .arr [jnum "2"]]]

/-- The second query of `TestCompile`: `["AND", ["b", ["OR", ["c"], [2]]], [2, ""]]`. -/
def oneNested : List JVal :=
  [.str "AND", .arr oneNestedFields, .arr [jnum "2", .str ""]]

/-- The fields `[["AND",["x"],[1]], ["AND",["y"],["z"]]]`: two well-formed nested triples. -/
def twoTriples : List JVal :=
  [.arr [.str "AND", .arr [.str "x"], .arr [jnum "1"]],
   .arr [.str "AND", .arr [.str "y"], .arr [.str "z"]]]

/-- The value `["AND", [["OR",["c"],[2]]], [""]]`: a single field, a nested triple. -/
def singleNested : JVal :=
  .arr [.str "AND", .arr [.arr [.str "OR", .arr [.str "c"], .arr [jnum "2"]]], .arr [.str ""]]

/-- The value `["OR", [["AND",["x"],[1]], "y"], ["", 2]]`: a nested triple at index 0, a
field name at index 1. -/
def nestedThenName : JVal :=
  .arr [.str "OR", .arr [.arr [.str "AND", .arr [.str "x"], .arr [jnum "1"]], .str "y"],
    .arr [.str "", jnum "2"]]

/-- The value `["AND", ["a", [["c"], 5, [2]]], [1, ""]]`: the entry at index 1 holds arrays
and has a number as element 1. -/
def numberInEntry : JVal :=
  .arr [.str "AND", .arr [.str "a", .arr [.arr [.str "c"], jnum "5", .arr [jnum "2"]]],
    .arr [jnum "1", .str ""]]

/-- The mode of an expression. -/
def Expression.mode : Expression → String
  | .mk mode _ _ => mode

/-- The field entries of an expression. -/
def Expression.fields : Expression → List FieldEntry
  | .mk _ fields _ => fields

/-- The values of an expression. -/
def Expression.values : Expression → List JVal
  | .mk _ _ values => values

/-- Trees in which, at every level, all fields are names except possibly the one at index
1, which may be a nested expression of the same kind. -/
inductive NestedOnlyAtOne : Expression → Prop where
  | flat (mode : String) (names : List String) (values : List JVal) :
      NestedOnlyAtOne (.mk mode (names.map .Leaf) values)
  | nest (mode : String) (first : String) (child : Expression) (names : List String)
      (values : List JVal) :
      NestedOnlyAtOne child →
      NestedOnlyAtOne (.mk mode (.Leaf first :: .Nested child :: names.map .Leaf) values)

/-- The tree of the three-level query of `TestCompile`. -/
def threeLevelsTree : Expression :=
  .mk "AND"
    [.Leaf "a",
     .Nested (.mk "AND"
       [.Leaf "b", .Nested (.mk "OR" [.Leaf "c", .Leaf "d"] [jnum "2", jnum "3"])]
       [jnum "2", .str ""])]
    [jnum "10", .str ""]

/-! ## Theorems -/

/-- C1 (fails on the code): on the well-formed tree
`["AND", [["OR",["c"],[2]], ["OR",["d"],[3]]], ["",""]]` the reference rendering is
`((c = 2)) AND ((d = 3))`, while `Compile` after `Parse` returns `((d = 3)) AND ((d = 3))`:
the loop of `falttenNestedRSQL` always reads the triple at index 1 of the slice.  On the
well-formed tree `["AND", [["OR",["c"],[2]], "a"], ["", 1]]`, rendered
`((c = 2)) AND (a = 1)`, index 1 holds a field name and `Compile` panics. -/
theorem compile_two_nested_differs_from_render :
    (twoNested.wellFormed = true ∧
      specRender twoNested = "((c = 2)) AND ((d = 3))" ∧
      parseAndCompile (.value twoNested.toJSON) = some (.ok "((d = 3)) AND ((d = 3))")) ∧
    (nestedAtZero.wellFormed = true ∧
      specRender nestedAtZero = "((c = 2)) AND (a = 1)" ∧
      parseAndCompile (.value nestedAtZero.toJSON) = some (.error .panic)) := by
  decide

/-! ### Flat triples -/

/-- The detector loop finds nothing among plain field names. -/
theorem findNestedLoop_map_str (fs : List String) :
    ∀ (i c : Nat) (idx : List Nat), findNestedLoop i c idx (fs.map JVal.str) = (c, idx) := by
  induction fs with
  | nil => intro i c idx; rfl
  | cons f rest ih => intro i c idx; simp [findNestedLoop, ih]

/-- For a field name, one loop iteration of `buildString` yields the fragment of §4.4. -/
theorem buildQuery_str (f : String) (v : JVal) :
    buildQuery (.str f) v = .ok (specLeafFragment f v) := by
  cases v with
  | str s => 
    by_cases h : s = "" <;> simp [buildQuery, typeName, specLeafFragment, fmtV, fmtS, fmtSInner, h]
  | _ => simp [buildQuery, typeName, specLeafFragment, fmtV, fmtS, fmtSInner]

/-- The loop of `buildString` over field names pairs them with the values in order. -/
theorem buildQueries_flat (fs : List String) :
    ∀ (pre vs : List JVal), fs.length = vs.length →
      buildQueries (pre ++ vs) pre.length (fs.map JVal.str)
        = .ok (List.zipWith specLeafFragment fs vs) := by
  induction fs with
  | nil => intro pre vs _; rfl
  | cons f rest ih =>
    intro pre vs hlen
    cases vs with
    | nil => simp at hlen
    | cons v vs1 =>
      have h1 : rest.length = vs1.length := by simpa using hlen
      have h2 := ih (pre ++ [v]) vs1 h1
      simp only [List.append_assoc, List.singleton_append, List.length_append,
        List.length_singleton] at h2
      have h3 : (pre ++ v :: vs1)[pre.length]? = some v := by
        rw [List.getElem?_append_right (le_refl _)]; simp
      simp [buildQueries, buildQuery_str, h2, h3]

/-- A `[string, array, array]` triple always decodes. -/
theorem unmarshal_triple (mode : String) (fields values : List JVal) :
    unmarshalToRSQLStruct [.str mode, .arr fields, .arr values]
      = .ok (decodedRSQL mode fields values) := by
  simp [unmarshalToRSQLStruct, findNestedRSQL, decodedRSQL]

/-- Outcome of `Parse` on a fresh parser holding a triple with as many values as fields. -/
theorem Parse_triple (mode : String) (fields values : List JVal)
    (hlen : fields.length = values.length) :
    Parse (NewRestfulSQLParser (.value (.arr [.str mode, .arr fields, .arr values])))
      = ({ Query := some (decodedRSQL mode fields values),
           rawQuery := .value (.arr [.str mode, .arr fields, .arr values]) },
         .ok (decodedRSQL mode fields values)) := by
  simp [Parse, jsonUnmarshal, NewRestfulSQLParser, unmarshal_triple, checkLength, decodedRSQL,
    hlen]

/-- C2: for every flat triple `[mode, fields, values]` with field names `fields` and as many
values (scalars or not), `Parse` succeeds and `Compile` returns, without error, the
fragments of §4.4 in index order joined by `" " ++ mode ++ " "`. -/
theorem compile_flat (mode : String) (fields : List String) (values : List JVal)
    (hlen : fields.length = values.length) :
    ∃ rsql r1,
      Parse (NewRestfulSQLParser (.value (.arr [.str mode, .arr (fields.map .str), .arr values])))
        = (r1, .ok rsql) ∧
      ∃ r2, Compile r1 = some (r2, .ok (String.intercalate (" " ++ mode ++ " ")
        (List.zipWith specLeafFragment fields values))) := by
  have hb := buildQueries_flat fields [] values hlen
  simp only [List.nil_append, List.length_nil] at hb
  refine ⟨_, _, Parse_triple mode (fields.map .str) values (by simpa using hlen), ?_⟩
  simp [Compile, decodedRSQL, findNestedLoop_map_str, falttenNestedRSQL, flattenRange,
    buildString, hb]

/-- C2 at `["AND", ["a"], [2]]`, which gives `(a = 2)`, and at empty `fields`, which gives
the empty string. -/
theorem compile_flat_witness :
    (["a"].length = [jnum "2"].length ∧
      ∃ rsql r1,
        Parse (NewRestfulSQLParser (.value (.arr [.str "AND", .arr [.str "a"], .arr [jnum "2"]])))
          = (r1, .ok rsql) ∧
        ∃ r2, Compile r1 = some (r2, .ok "(a = 2)")) ∧
    (∃ rsql r1,
        Parse (NewRestfulSQLParser (.value (.arr [.str "OR", .arr [], .arr []])))
          = (r1, .ok rsql) ∧
        ∃ r2, Compile r1 = some (r2, .ok "")) :=
  ⟨⟨rfl, compile_flat "AND" ["a"] [jnum "2"] rfl⟩, compile_flat "OR" [] [] rfl⟩

/-- C3 (fails on the code): in `["AND", [["OR",["c"],[]], ["OR",["d"],[2]]], ["",""]]` the
nested triple at index 0 has one field and no value, a mismatch `checkLength` reports when
asked, yet `Parse` succeeds and `Compile` returns the string `((d = 2)) AND ((d = 2))`. -/
theorem compile_accepts_mismatch_at_index_zero :
    (unmarshalToRSQLStruct [.str "OR", .arr [.str "c"], .arr []]).map checkLength
      = .ok (some .ErrNumOfFieldAndValueMismatch) ∧
    parseAndCompile (.value mismatchAtZero) = some (.ok "((d = 2)) AND ((d = 2))") := by
  decide

/-! ### Structure of the decoded triple -/

/-- A list of decoded values is structurally invalid or is a `[string, array, array]`
triple. -/
theorem invalid_or_triple (raw : List JVal) :
    invalidStructure raw ∨ ∃ m F V, raw = [.str m, .arr F, .arr V] := by
  match raw with
  | [] => simp [invalidStructure]
  | [_] => simp [invalidStructure]
  | [_, _] => simp [invalidStructure]
  | _ :: _ :: _ :: _ :: _ => simp [invalidStructure]
  | [a, b, c] =>
    cases a
    case str m =>
      cases b
      case arr F =>
        cases c
        case arr V => exact Or.inr ⟨m, F, V, rfl⟩
        all_goals exact Or.inl (by simp [invalidStructure, elemIs, JVal.isArray])
      all_goals exact Or.inl (by simp [invalidStructure, elemIs, JVal.isArray])
    all_goals exact Or.inl (by simp [invalidStructure, elemIs, JVal.isString])

/-- A `[string, array, array]` triple is not structurally invalid. -/
theorem triple_not_invalid (m : String) (F V : List JVal) :
    ¬ invalidStructure [.str m, .arr F, .arr V] := by
  simp [invalidStructure, elemIs, JVal.isString, JVal.isArray]

/-- A structurally invalid list is rejected with `ErrInvalidRestfulSQL`. -/
theorem unmarshal_of_invalid (raw : List JVal) (h : invalidStructure raw) :
    unmarshalToRSQLStruct raw = .error .ErrInvalidRestfulSQL := by
  match raw with
  | [] => simp [unmarshalToRSQLStruct]
  | [_] => simp [unmarshalToRSQLStruct]
  | [_, _] => simp [unmarshalToRSQLStruct]
  | _ :: _ :: _ :: _ :: _ => simp [unmarshalToRSQLStruct]
  | [a, b, c] =>
    cases a
    case str m =>
      cases b
      case arr F =>
        cases c
        case arr V => exact absurd h (triple_not_invalid m F V)
        all_goals simp [unmarshalToRSQLStruct]
      all_goals simp [unmarshalToRSQLStruct]
    all_goals simp [unmarshalToRSQLStruct]

/-- C4: `unmarshalToRSQLStruct raw` fails with `ErrInvalidRestfulSQL` exactly when `raw` does
not have 3 elements, or `raw[0]` is not a string, or `raw[1]` or `raw[2]` is not an array,
and it succeeds in every other case. -/
theorem unmarshal_error_iff_invalidStructure (raw : List JVal) :
    (unmarshalToRSQLStruct raw = .error .ErrInvalidRestfulSQL ↔ invalidStructure raw) ∧
    ((∃ rsql, unmarshalToRSQLStruct raw = .ok rsql) ↔ ¬ invalidStructure raw) := by
  rcases invalid_or_triple raw with h | ⟨m, F, V, rfl⟩
  · simp [unmarshal_of_invalid raw h, h]
  · simp [unmarshal_triple, triple_not_invalid]

/-- C5 (fails on the code): in `["AND", ["a", [["c"]]], [1, ""]]` the entry at index 1 is
classified nested and is not a 3-element triple; `Parse` accepts the input and `Compile`
panics on `targetingFields[1]` instead of returning `ErrInvalidRestfulSQL`. -/
theorem compile_panics_on_short_nested_entry :
    findNestedRSQL (.arr [.str "a", .arr [.arr [.str "c"]]]) = .ok (1, [1]) ∧
    invalidStructure [.arr [.str "c"]] ∧
    (∃ rsql, (Parse (NewRestfulSQLParser (.value looksNested))).2 = .ok rsql) ∧
    parseAndCompile (.value looksNested) = some (.error .panic) := by
  refine ⟨by decide, by simp [invalidStructure], ⟨_, rfl⟩, by decide⟩

/-! ### The detector -/

/-- The test `containsType` against the slice type holds exactly when some element is an array. -/
theorem containsType_slice (v : List JVal) :
    containsType v "[]interface {}" = v.any JVal.isArray := by
  unfold containsType
  congr 1
  funext w
  cases w <;> simp [typeName, JVal.isArray]

/-- The detector loop appends the classified indexes and counts them. -/
theorem findNestedLoop_eq (xs : List JVal) :
    ∀ (i c : Nat) (idx : List Nat),
      findNestedLoop i c idx xs = (c + (nestedFrom i xs).length, idx ++ nestedFrom i xs) := by
  induction xs with
  | nil => intro i c idx; simp [findNestedLoop, nestedFrom]
  | cons x rest ih =>
    intro i c idx
    cases x with
    | arr v =>
      by_cases h : v.any JVal.isArray = true
      · simp [findNestedLoop, nestedFrom, classifiedNested, containsType_slice, h, ih]
        omega
      · simp [findNestedLoop, nestedFrom, classifiedNested, containsType_slice, h, ih]
    | _ => simp [findNestedLoop, nestedFrom, classifiedNested, ih]

/-- Membership in the classified indexes. -/
theorem mem_nestedFrom (xs : List JVal) :
    ∀ (i k : Nat), k ∈ nestedFrom i xs ↔
      ∃ j x, k = i + j ∧ xs[j]? = some x ∧ classifiedNested x = true := by
  induction xs with
  | nil => intro i k; simp [nestedFrom]
  | cons y rest ih =>
    intro i k
    have hstep : k ∈ nestedFrom (i + 1) rest ↔
        ∃ j x, k = i + (j + 1) ∧ (y :: rest)[j + 1]? = some x ∧ classifiedNested x = true := by
      rw [ih]
      constructor
      · rintro ⟨j, x, hk, hx, hc⟩
        exact ⟨j, x, by omega, by simpa using hx, hc⟩
      · rintro ⟨j, x, hk, hx, hc⟩
        exact ⟨j, x, by omega, by simpa using hx, hc⟩
    constructor
    · intro hmem
      unfold nestedFrom at hmem
      by_cases hy : classifiedNested y = true
      · rw [if_pos hy] at hmem
        rcases List.mem_cons.mp hmem with h0 | h1
        · exact ⟨0, y, by omega, by simp, hy⟩
        · obtain ⟨j, x, h⟩ := hstep.mp h1
          exact ⟨j + 1, x, h⟩
      · rw [if_neg hy] at hmem
        obtain ⟨j, x, h⟩ := hstep.mp hmem
        exact ⟨j + 1, x, h⟩
    · rintro ⟨j, x, hk, hx, hc⟩
      unfold nestedFrom
      cases j with
      | zero =>
        have hxy : y = x := by simpa using hx
        subst hxy
        rw [if_pos hc]
        exact List.mem_cons.mpr (Or.inl (by omega))
      | succ j1 =>
        have h1 : k ∈ nestedFrom (i + 1) rest := hstep.mpr ⟨j1, x, hk, hx, hc⟩
        by_cases hy : classifiedNested y = true
        · rw [if_pos hy]; exact List.mem_cons_of_mem _ h1
        · rw [if_neg hy]; exact h1

/-- The classified indexes are strictly increasing. -/
theorem pairwise_nestedFrom (xs : List JVal) :
    ∀ i : Nat, List.Pairwise (· < ·) (nestedFrom i xs) := by
  induction xs with
  | nil => intro i; simp [nestedFrom]
  | cons y rest ih =>
    intro i
    unfold nestedFrom
    by_cases hy : classifiedNested y = true
    · rw [if_pos hy]
      refine List.pairwise_cons.mpr ⟨?_, ih (i + 1)⟩
      intro k hk
      obtain ⟨j, x, hkj, _, _⟩ := (mem_nestedFrom rest (i + 1) k).mp hk
      omega
    · rw [if_neg hy]; exact ih (i + 1)

/-- C6: on an array `fields`, `findNestedRSQL` returns `(count, indexes)` where `indexes` is
strictly increasing, holds exactly the `i` for which `fields[i]` is an array with an
element that is an array, and `count` is its length; `["b", ["OR", ["c"], [2]]]` gives
`(1, [1])` and `["a", "b"]` gives `(0, [])`. -/
theorem findNestedRSQL_indexes (fields : List JVal) :
    (∃ count indexes, findNestedRSQL (.arr fields) = .ok (count, indexes) ∧
      count = indexes.length ∧ List.Pairwise (· < ·) indexes ∧
      ∀ i, i ∈ indexes ↔ ∃ x, fields[i]? = some x ∧ classifiedNested x = true) ∧
    findNestedRSQL (.arr [.str "b", .arr [.str "OR", .arr [.str "c"], .arr [jnum "2"]]])
      = .ok (1, [1]) ∧
    findNestedRSQL (.arr [.str "a", .str "b"]) = .ok (0, []) := by
  refine ⟨⟨(nestedFrom 0 fields).length, nestedFrom 0 fields, ?_, rfl, pairwise_nestedFrom fields 0,
    ?_⟩, by decide, by decide⟩
  · simp [findNestedRSQL, findNestedLoop_eq]
  · intro i
    rw [mem_nestedFrom]
    constructor
    · rintro ⟨j, x, hk, hx, hc⟩
      have : i = j := by omega
      subst this
      exact ⟨x, hx, hc⟩
    · rintro ⟨x, hx, hc⟩
      exact ⟨i, x, by omega, hx, hc⟩

/-! ### `Parse` and the parser state -/

/-- Outcome of `Parse` on a parser holding a structurally invalid array. -/
theorem Parse_invalid_any (Q : Option RSQL) (raw : List JVal) (h : invalidStructure raw) :
    Parse { Query := Q, rawQuery := .value (.arr raw) }
      = ({ Query := some (Q.getD RSQL.zero), rawQuery := .value (.arr raw) },
         .error .ErrInvalidRestfulSQL) := by
  simp [Parse, jsonUnmarshal, unmarshal_of_invalid raw h]

/-- Outcome of `Parse` on a parser holding a triple whose two lengths differ. -/
theorem Parse_mismatch_any (Q : Option RSQL) (mode : String) (fields values : List JVal)
    (hlen : fields.length ≠ values.length) :
    Parse { Query := Q, rawQuery := .value (.arr [.str mode, .arr fields, .arr values]) }
      = ({ Query := some (decodedRSQL mode fields values),
           rawQuery := .value (.arr [.str mode, .arr fields, .arr values]) },
         .error .ErrNumOfFieldAndValueMismatch) := by
  simp [Parse, jsonUnmarshal, unmarshal_triple, checkLength, decodedRSQL, hlen]

/-- Outcome of `Parse` on a parser holding a triple with as many values as fields. -/
theorem Parse_triple_any (Q : Option RSQL) (mode : String) (fields values : List JVal)
    (hlen : fields.length = values.length) :
    Parse { Query := Q, rawQuery := .value (.arr [.str mode, .arr fields, .arr values]) }
      = ({ Query := some (decodedRSQL mode fields values),
           rawQuery := .value (.arr [.str mode, .arr fields, .arr values]) },
         .ok (decodedRSQL mode fields values)) := by
  simp [Parse, jsonUnmarshal, unmarshal_triple, checkLength, decodedRSQL, hlen]

/-- Two `[string, array, array]` triples that are equal have equal parts. -/
theorem triple_inj {m m1 : String} {F V F1 V1 : List JVal}
    (h : [JVal.str m, JVal.arr F, JVal.arr V] = [JVal.str m1, JVal.arr F1, JVal.arr V1]) :
    m = m1 ∧ F = F1 ∧ V = V1 := by
  simpa using h

/-- C7 (as stated, fails): in the query of `TestParse` the entry at index 1 is classified
nested and has two fields for one value, and `Parse` returns an expression. -/
theorem Parse_accepts_nested_mismatch :
    classifiedNested (.arr nestedMismatchEntry) = true ∧
    (unmarshalToRSQLStruct nestedMismatchEntry).map checkLength
      = .ok (some .ErrNumOfFieldAndValueMismatch) ∧
    ∃ rsql, (Parse (NewRestfulSQLParser (.value (.arr parseTestQuery)))).2 = .ok rsql :=
  ⟨by decide, by decide, _, rfl⟩

/-- C7 (amended): `Parse` validates shape and length-consistency at the top level only.  On
a decoded array `raw` it returns `ErrInvalidRestfulSQL` exactly when `raw` is not a
3-element `[string, array, array]`, `ErrNumOfFieldAndValueMismatch` exactly when `raw` is
such a triple whose two arrays differ in length, and an expression exactly when it is such
a triple with equal lengths, whatever the nested entries hold. -/
theorem Parse_validates_top_level_only (raw : List JVal) :
    ((Parse (NewRestfulSQLParser (.value (.arr raw)))).2 = .error .ErrInvalidRestfulSQL
      ↔ invalidStructure raw) ∧
    ((Parse (NewRestfulSQLParser (.value (.arr raw)))).2 = .error .ErrNumOfFieldAndValueMismatch
      ↔ ∃ m F V, raw = [.str m, .arr F, .arr V] ∧ F.length ≠ V.length) ∧
    ((∃ rsql, (Parse (NewRestfulSQLParser (.value (.arr raw)))).2 = .ok rsql)
      ↔ ∃ m F V, raw = [.str m, .arr F, .arr V] ∧ F.length = V.length) := by
  rcases invalid_or_triple raw with h | ⟨m, F, V, rfl⟩
  · have hno : ∀ m F V, raw ≠ [JVal.str m, JVal.arr F, JVal.arr V] := by
      rintro m F V rfl
      exact triple_not_invalid m F V h
    have hP := Parse_invalid_any none raw h
    rw [show NewRestfulSQLParser (.value (.arr raw)) = ⟨none, .value (.arr raw)⟩ from rfl, hP]
    refine ⟨⟨fun _ => h, fun _ => rfl⟩, ⟨fun h1 => ?_, ?_⟩, ⟨?_, ?_⟩⟩
    · cases h1
    · rintro ⟨m, F, V, h1, _⟩; exact absurd h1 (hno m F V)
    · rintro ⟨_, h1⟩; cases h1
    · rintro ⟨m, F, V, h1, _⟩; exact absurd h1 (hno m F V)
  · rw [show NewRestfulSQLParser (.value (.arr [JVal.str m, JVal.arr F, JVal.arr V]))
      = ⟨none, .value (.arr [JVal.str m, JVal.arr F, JVal.arr V])⟩ from rfl]
    by_cases hlen : F.length = V.length
    · rw [Parse_triple_any none m F V hlen]
      refine ⟨⟨fun h1 => ?_, fun h1 => absurd h1 (triple_not_invalid m F V)⟩,
        ⟨fun h1 => ?_, ?_⟩, ⟨fun _ => ⟨m, F, V, rfl, hlen⟩, fun _ => ⟨_, rfl⟩⟩⟩
      · cases h1
      · cases h1
      · rintro ⟨m1, F1, V1, h1, h2⟩
        obtain ⟨_, rfl, rfl⟩ := triple_inj h1
        exact absurd hlen h2
    · rw [Parse_mismatch_any none m F V hlen]
      refine ⟨⟨fun h1 => ?_, fun h1 => absurd h1 (triple_not_invalid m F V)⟩,
        ⟨fun _ => ⟨m, F, V, rfl, hlen⟩, fun _ => rfl⟩, ⟨?_, ?_⟩⟩
      · cases h1
      · rintro ⟨_, h1⟩; cases h1
      · rintro ⟨m1, F1, V1, h1, h2⟩
        obtain ⟨_, rfl, rfl⟩ := triple_inj h1
        exact absurd h2 hlen

/-- C8: for `[m, F, V]` with `F` and `V` of equal length, `Parse` succeeds, stores and
returns an expression with `Mode = m`, `Fields = F` and `Values = V` as decoded (arrays
inside `F` stay raw arrays), whose count and index list are those of `findNestedRSQL F`. -/
theorem Parse_returns_decoded_triple (m : String) (F V : List JVal)
    (hlen : F.length = V.length) :
    ∃ rsql, Parse (NewRestfulSQLParser (.value (.arr [.str m, .arr F, .arr V])))
        = ({ Query := some rsql, rawQuery := .value (.arr [.str m, .arr F, .arr V]) }, .ok rsql) ∧
      rsql.Mode = m ∧ rsql.Fields = F ∧ rsql.Values = V ∧
      findNestedRSQL (.arr F) = .ok (rsql.nestedRSQLCount, rsql.nestedRSQLIndexes) :=
  ⟨decodedRSQL m F V, Parse_triple_any none m F V hlen, rfl, rfl, rfl, rfl⟩

/-- C8 on the query of `TestParse`. -/
theorem Parse_returns_decoded_triple_witness :
    [JVal.str "a", JVal.arr nestedMismatchEntry].length = [jnum "10", JVal.str ""].length ∧
    ∃ rsql, Parse (NewRestfulSQLParser (.value (.arr parseTestQuery)))
        = ({ Query := some rsql, rawQuery := .value (.arr parseTestQuery) }, .ok rsql) ∧
      rsql.Mode = "AND" ∧ rsql.Fields = [.str "a", .arr nestedMismatchEntry] ∧
      rsql.Values = [jnum "10", .str ""] ∧
      findNestedRSQL (.arr [.str "a", .arr nestedMismatchEntry])
        = .ok (rsql.nestedRSQLCount, rsql.nestedRSQLIndexes) :=
  ⟨rfl, Parse_returns_decoded_triple "AND" [.str "a", .arr nestedMismatchEntry]
    [jnum "10", .str ""] rfl⟩

/-- C9: on `["AND", ["a", ["AND", ["b", ["OR", ["c","d"], [2,3]]], [2,""]]], [10, ""]]`,
`Parse` succeeds and `Compile` returns, without error,
`(a = 10) AND ((b = 2) AND ((c = 2) OR (d = 3)))`. -/
theorem compile_three_levels :
    ∃ rsql r1, Parse (NewRestfulSQLParser (.value threeLevels)) = (r1, .ok rsql) ∧
      ∃ r2, Compile r1
        = some (r2, .ok "(a = 10) AND ((b = 2) AND ((c = 2) OR (d = 3)))") :=
  ⟨_, _, rfl, _, rfl⟩

/-- C10 (as stated, fails): on `["AND", ["a"], []]` a fresh parser, whose `Query` is unset,
gets `ErrNumOfFieldAndValueMismatch` from `Parse` and is left with `Query` set. -/
theorem Parse_failure_changes_Query :
    (NewRestfulSQLParser (.value lengthMismatch)).Query = none ∧
    (Parse (NewRestfulSQLParser (.value lengthMismatch))).2
      = .error .ErrNumOfFieldAndValueMismatch ∧
    (Parse (NewRestfulSQLParser (.value lengthMismatch))).1.Query
      ≠ (NewRestfulSQLParser (.value lengthMismatch)).Query := by
  refine ⟨rfl, rfl, ?_⟩
  intro h
  have h1 := congrArg Option.isSome h
  revert h1
  decide

/-- C10 (amended): when `Parse` returns an error `e`, the caller receives only the error
and `rawQuery` is kept, but `Query` is unchanged only when the text is not valid JSON.
When the decoded value is rejected (`ErrInvalidRestfulSQL`, or a value that is no array)
a `Query` that was unset is left pointing to an empty record, one that was set is left as
it was; on a top-level length mismatch `Query` holds the decoded expression. -/
theorem Parse_failure_state (r : Parser) (e : Fault) (he : (Parse r).2 = .error e)
    (hne : e ≠ .panic) :
    (Parse r).1.rawQuery = r.rawQuery ∧
    ((r.rawQuery = .malformed ∧ (Parse r).1.Query = r.Query) ∨
     (e ≠ .ErrNumOfFieldAndValueMismatch ∧ r.rawQuery ≠ .malformed ∧
        (Parse r).1.Query = some (r.Query.getD RSQL.zero)) ∨
     (e = .ErrNumOfFieldAndValueMismatch ∧
        ∃ m F V, r.rawQuery = .value (.arr [.str m, .arr F, .arr V]) ∧ F.length ≠ V.length ∧
          (Parse r).1.Query = some (decodedRSQL m F V))) := by
  obtain ⟨Q, raw⟩ := r
  cases raw with
  | malformed => exact ⟨rfl, Or.inl ⟨rfl, rfl⟩⟩
  | value v =>
    cases v with
    | arr xs =>
      rcases invalid_or_triple xs with h | ⟨m, F, V, rfl⟩
      · rw [Parse_invalid_any Q xs h] at he ⊢
        cases he
        exact ⟨rfl, Or.inr (Or.inl ⟨by decide, by simp, rfl⟩)⟩
      · by_cases hlen : F.length = V.length
        · rw [Parse_triple_any Q m F V hlen] at he
          cases he
        · rw [Parse_mismatch_any Q m F V hlen] at he ⊢
          cases he
          exact ⟨rfl, Or.inr (Or.inr ⟨rfl, m, F, V, rfl, hlen, rfl⟩)⟩
    | null =>
      have h1 : (Parse { Query := Q, rawQuery := .value .null }).2 = .error .panic := rfl
      rw [h1] at he
      cases he
      exact absurd rfl hne
    | bool b =>
      have h1 : Parse { Query := Q, rawQuery := .value (.bool b) }
        = ({ Query := some (Q.getD RSQL.zero), rawQuery := .value (.bool b) },
           .error .jsonError) := rfl
      rw [h1] at he ⊢
      cases he
      exact ⟨rfl, Or.inr (Or.inl ⟨by decide, by simp, rfl⟩)⟩
    | num n =>
      have h1 : Parse { Query := Q, rawQuery := .value (.num n) }
        = ({ Query := some (Q.getD RSQL.zero), rawQuery := .value (.num n) },
           .error .jsonError) := rfl
      rw [h1] at he ⊢
      cases he
      exact ⟨rfl, Or.inr (Or.inl ⟨by decide, by simp, rfl⟩)⟩
    | str t =>
      have h1 : Parse { Query := Q, rawQuery := .value (.str t) }
        = ({ Query := some (Q.getD RSQL.zero), rawQuery := .value (.str t) },
           .error .jsonError) := rfl
      rw [h1] at he ⊢
      cases he
      exact ⟨rfl, Or.inr (Or.inl ⟨by decide, by simp, rfl⟩)⟩
    | obj kvs =>
      have h1 : Parse { Query := Q, rawQuery := .value (.obj kvs) }
        = ({ Query := some (Q.getD RSQL.zero), rawQuery := .value (.obj kvs) },
           .error .jsonError) := rfl
      rw [h1] at he ⊢
      cases he
      exact ⟨rfl, Or.inr (Or.inl ⟨by decide, by simp, rfl⟩)⟩

/-- C10 (amended) on `["AND", ["a"], []]` with a fresh parser. -/
theorem Parse_failure_state_witness :
    (Parse (NewRestfulSQLParser (.value lengthMismatch))).2
      = .error .ErrNumOfFieldAndValueMismatch ∧
    Fault.ErrNumOfFieldAndValueMismatch ≠ Fault.panic ∧
    (Parse (NewRestfulSQLParser (.value lengthMismatch))).1.rawQuery
      = (NewRestfulSQLParser (.value lengthMismatch)).rawQuery ∧
    (((NewRestfulSQLParser (.value lengthMismatch)).rawQuery = .malformed ∧
        (Parse (NewRestfulSQLParser (.value lengthMismatch))).1.Query
          = (NewRestfulSQLParser (.value lengthMismatch)).Query) ∨
     (Fault.ErrNumOfFieldAndValueMismatch ≠ .ErrNumOfFieldAndValueMismatch ∧
        (NewRestfulSQLParser (.value lengthMismatch)).rawQuery ≠ .malformed ∧
        (Parse (NewRestfulSQLParser (.value lengthMismatch))).1.Query
          = some ((NewRestfulSQLParser (.value lengthMismatch)).Query.getD RSQL.zero)) ∨
     (Fault.ErrNumOfFieldAndValueMismatch = .ErrNumOfFieldAndValueMismatch ∧
        ∃ m F V, (NewRestfulSQLParser (.value lengthMismatch)).rawQuery
            = .value (.arr [.str m, .arr F, .arr V]) ∧ F.length ≠ V.length ∧
          (Parse (NewRestfulSQLParser (.value lengthMismatch))).1.Query
            = some (decodedRSQL m F V))) :=
  ⟨rfl, by decide, Parse_failure_state (NewRestfulSQLParser (.value lengthMismatch))
    .ErrNumOfFieldAndValueMismatch rfl (by decide)⟩

/-! ### Fuel -/

/-- An element of a slice is no deeper than the slice's deepest element. -/
theorem jdepth_le_of_getElem? (xs : List JVal) :
    ∀ (i : Nat) (x : JVal), xs[i]? = some x → jdepth x ≤ jdepthList xs := by
  induction xs with
  | nil => intro i x h; simp at h
  | cons y rest ih =>
    intro i x h
    cases i with
    | zero =>
      have hxy : y = x := by simpa using h
      subst hxy
      simp [jdepthList]
    | succ j =>
      have h1 : rest[j]? = some x := by simpa using h
      have h2 := ih j x h1
      simp only [jdepthList]
      omega

/-- Overwriting a slot with a value of depth at most `d` keeps a slice of depth at most `d`
within `d`. -/
theorem jdepthList_set_le (xs : List JVal) :
    ∀ (i : Nat) (y : JVal) (d : Nat), jdepthList xs ≤ d → jdepth y ≤ d →
      jdepthList (xs.set i y) ≤ d := by
  induction xs with
  | nil => intro i y d h _; simpa using h
  | cons x rest ih =>
    intro i y d h hy
    simp only [jdepthList] at h
    cases i with
    | zero =>
      simp only [List.set_cons_zero, jdepthList]
      omega
    | succ j =>
      have h2 := ih j y d (by omega) hy
      simp only [List.set_cons_succ, jdepthList]
      omega

/-- One loop iteration returns, and leaves a slice no deeper than it was, when the
recursive call does so on every value of depth below `bound`. -/
theorem flattenBody_total (recur : JVal → List Nat → Option (JVal × Option Fault))
    (bound : Nat)
    (hrec : ∀ x idx, jdepth x < bound →
      ∃ x1 e, recur x idx = some (x1, e) ∧ jdepth x1 ≤ jdepth x)
    (fs : List JVal) (v : Nat) (hD : jdepthList fs ≤ bound) :
    ∃ fs1 e, flattenBody recur fs v = some (fs1, e) ∧ jdepthList fs1 ≤ jdepthList fs := by
  unfold flattenBody
  split
  · rename_i tf h1
    have htf : jdepthList tf + 1 ≤ jdepthList fs := by
      have := jdepth_le_of_getElem? fs 1 _ h1
      simpa [jdepth] using this
    split
    · exact ⟨_, _, rfl, le_refl _⟩
    · rename_i tv h2
      have htv : jdepth tv ≤ jdepthList tf := jdepth_le_of_getElem? tf v tv h2
      split
      · exact ⟨_, _, rfl, le_refl _⟩
      · rename_i count indexes h3
        have hr : ∃ tv1 e, (if count > 0 then recur tv indexes else some (tv, none))
            = some (tv1, e) ∧ jdepth tv1 ≤ jdepth tv := by
          split
          · exact hrec tv indexes (by omega)
          · exact ⟨tv, none, rfl, le_refl _⟩
        obtain ⟨tv1, err, hr1, hr2⟩ := hr
        rw [hr1]
        have hfs1 : jdepthList (fs.set 1 (.arr (tf.set v tv1))) ≤ jdepthList fs := by
          apply jdepthList_set_le fs 1 _ _ (le_refl _)
          have := jdepthList_set_le tf v tv1 (jdepthList tf) (le_refl _) (by omega)
          simp only [jdepth]
          omega
        have hfs2 : ∀ s, jdepthList ((fs.set 1 (.arr (tf.set v tv1))).set v (.str s))
            ≤ jdepthList fs := by
          intro s
          exact jdepthList_set_le _ v _ _ hfs1 (by simp [jdepth])
        simp only []
        repeat' split
        all_goals first
          | exact ⟨_, _, rfl, hfs1⟩
          | exact ⟨_, _, rfl, hfs2 _⟩
  · exact ⟨_, _, rfl, le_refl _⟩

/-- The loop returns, and leaves a slice no deeper than it was, under the same condition
on the recursive call. -/
theorem flattenRange_total (recur : JVal → List Nat → Option (JVal × Option Fault))
    (bound : Nat)
    (hrec : ∀ x idx, jdepth x < bound →
      ∃ x1 e, recur x idx = some (x1, e) ∧ jdepth x1 ≤ jdepth x)
    (idxs : List Nat) :
    ∀ fs : List JVal, jdepthList fs ≤ bound →
      ∃ fs1 e, flattenRange recur fs idxs = some (fs1, e) ∧ jdepthList fs1 ≤ jdepthList fs := by
  induction idxs with
  | nil => intro fs _; exact ⟨fs, none, rfl, le_refl _⟩
  | cons v rest ih =>
    intro fs hD
    obtain ⟨fs1, e, h1, h2⟩ := flattenBody_total recur bound hrec fs v hD
    cases e with
    | some e1 => exact ⟨fs1, some e1, by simp [flattenRange, h1], h2⟩
    | none =>
      obtain ⟨fs2, e2, h3, h4⟩ := ih fs1 (by omega)
      exact ⟨fs2, e2, by simp [flattenRange, h1, h3], by omega⟩

/-- With fuel above the nesting depth of `fields`, `falttenNestedRSQL` returns, and the
value it leaves is no deeper than `fields`. -/
theorem falttenNestedRSQL_total (fuel : Nat) :
    ∀ (fields : JVal) (idxs : List Nat), jdepth fields < fuel →
      ∃ f1 e, falttenNestedRSQL fuel fields idxs = some (f1, e) ∧ jdepth f1 ≤ jdepth fields := by
  induction fuel with
  | zero => intro fields idxs h; omega
  | succ n ih =>
    intro fields idxs h
    cases fields with
    | arr fs =>
      have hD : jdepthList fs ≤ n := by simp only [jdepth] at h; omega
      obtain ⟨fs1, e, h1, h2⟩ := flattenRange_total (falttenNestedRSQL n) n ih idxs fs hD
      exact ⟨.arr fs1, e, by simp [falttenNestedRSQL, h1], by simp only [jdepth]; omega⟩
    | _ => exact ⟨_, _, rfl, le_refl _⟩

/-- The model of `Compile` never runs out of fuel. -/
theorem Compile_total (r : Parser) : ∃ r1 res, Compile r = some (r1, res) := by
  unfold Compile
  cases hq : r.Query with
  | none => exact ⟨_, _, rfl⟩
  | some q =>
    obtain ⟨f1, e, h1, _⟩ := falttenNestedRSQL_total (jdepth (.arr q.Fields) + 1) (.arr q.Fields)
      q.nestedRSQLIndexes (by omega)
    simp only [h1]
    repeat' split
    all_goals first
      | exact ⟨_, _, rfl⟩
      | simp_all

/-- Flattening a slice hands back a slice. -/
theorem falttenNestedRSQL_arr (fuel : Nat) (fs : List JVal) (idxs : List Nat) (f1 : JVal)
    (e : Option Fault) (h : falttenNestedRSQL fuel (.arr fs) idxs = some (f1, e)) :
    ∃ fs1, f1 = .arr fs1 := by
  cases fuel with
  | zero => simp [falttenNestedRSQL] at h
  | succ n =>
    simp only [falttenNestedRSQL] at h
    split at h
    · cases h
    · cases h
      exact ⟨_, rfl⟩

/-! ### Invariants of the decoded record -/

/-- A successful `unmarshalToRSQLStruct` was given a triple and built its record. -/
theorem unmarshal_ok_inv (raw : List JVal) (r : RSQL) (h : unmarshalToRSQLStruct raw = .ok r) :
    ∃ m F V, raw = [.str m, .arr F, .arr V] ∧ r = decodedRSQL m F V := by
  rcases invalid_or_triple raw with hi | ⟨m, F, V, rfl⟩
  · rw [unmarshal_of_invalid raw hi] at h; cases h
  · rw [unmarshal_triple] at h
    cases h
    exact ⟨m, F, V, rfl, rfl⟩

/-- Every classified index lies inside the slice. -/
theorem lt_length_of_mem_nestedFrom (xs : List JVal) (k : Nat) (h : k ∈ nestedFrom 0 xs) :
    k < xs.length := by
  obtain ⟨j, x, hk, hx, _⟩ := (mem_nestedFrom xs 0 k).mp h
  have hj : j < xs.length := by
    by_contra hge
    rw [List.getElem?_eq_none (by omega)] at hx
    cases hx
  omega

/-- C19: a record produced by a successful `unmarshalToRSQLStruct` has
`refFieldsLength = len(Fields)`, `refValuesLength = len(Values)`,
`nestedRSQLCount = len(nestedRSQLIndexes)`, a strictly increasing `nestedRSQLIndexes` with
every element below `len(Fields)`, and `checkLength` fails on it, with
`ErrNumOfFieldAndValueMismatch`, exactly when `len(Fields) ≠ len(Values)`. -/
theorem unmarshal_record_invariants (raw : List JVal) (r : RSQL)
    (h : unmarshalToRSQLStruct raw = .ok r) :
    r.refFieldsLength = r.Fields.length ∧ r.refValuesLength = r.Values.length ∧
    r.nestedRSQLCount = r.nestedRSQLIndexes.length ∧
    List.Pairwise (· < ·) r.nestedRSQLIndexes ∧
    (∀ i ∈ r.nestedRSQLIndexes, i < r.Fields.length) ∧
    (checkLength r = some .ErrNumOfFieldAndValueMismatch ↔ r.Fields.length ≠ r.Values.length) ∧
    (checkLength r = none ↔ r.Fields.length = r.Values.length) := by
  obtain ⟨m, F, V, _, rfl⟩ := unmarshal_ok_inv raw r h
  have hl := findNestedLoop_eq F 0 0 []
  refine ⟨rfl, rfl, ?_, ?_, ?_, ?_, ?_⟩
  · simp [decodedRSQL, hl]
  · simp only [decodedRSQL, hl, List.nil_append]
    exact pairwise_nestedFrom F 0
  · intro i hi
    simp only [decodedRSQL, hl, List.nil_append] at hi
    exact lt_length_of_mem_nestedFrom F i hi
  · simp [checkLength, decodedRSQL]
  · simp [checkLength, decodedRSQL]

/-- C19 on the query of `TestParse`. -/
theorem unmarshal_record_invariants_witness :
    unmarshalToRSQLStruct parseTestQuery
      = .ok (decodedRSQL "AND" [.str "a", .arr nestedMismatchEntry] [jnum "10", .str ""]) ∧
    (decodedRSQL "AND" [.str "a", .arr nestedMismatchEntry] [jnum "10", .str ""]).nestedRSQLCount
      = (decodedRSQL "AND" [.str "a", .arr nestedMismatchEntry]
          [jnum "10", .str ""]).nestedRSQLIndexes.length :=
  ⟨rfl, (unmarshal_record_invariants parseTestQuery
    (decodedRSQL "AND" [.str "a", .arr nestedMismatchEntry] [jnum "10", .str ""]) rfl).2.2.1⟩

/-! ### The top-level length check -/

/-- C14: on a structurally valid top-level array `[m, F, V]`, `Parse` returns
`ErrNumOfFieldAndValueMismatch` exactly when `len(F) ≠ len(V)`, whatever `F` and `V`
contain and whatever the parser held before. -/
theorem Parse_mismatch_iff (Q : Option RSQL) (m : String) (F V : List JVal) :
    (Parse { Query := Q, rawQuery := .value (.arr [.str m, .arr F, .arr V]) }).2
      = .error .ErrNumOfFieldAndValueMismatch ↔ F.length ≠ V.length := by
  by_cases hlen : F.length = V.length
  · rw [Parse_triple_any Q m F V hlen]
    constructor
    · intro h; cases h
    · intro h; exact absurd hlen h
  · rw [Parse_mismatch_any Q m F V hlen]
    exact ⟨fun _ => hlen, fun _ => rfl⟩

/-- A successful `Parse` was given a triple with as many values as fields, and stored and
returned its record. -/
theorem Parse_ok_inv (Q : Option RSQL) (raw : RawJSON) (r1 : Parser) (rsql : RSQL)
    (h : Parse { Query := Q, rawQuery := raw } = (r1, .ok rsql)) :
    ∃ m F V, raw = .value (.arr [.str m, .arr F, .arr V]) ∧ F.length = V.length ∧
      rsql = decodedRSQL m F V ∧ r1 = { Query := some rsql, rawQuery := raw } := by
  cases raw with
  | malformed => simp [Parse, jsonUnmarshal] at h
  | value v =>
    cases v with
    | arr xs =>
      rcases invalid_or_triple xs with hi | ⟨m, F, V, rfl⟩
      · rw [Parse_invalid_any Q xs hi] at h
        cases h
      · by_cases hlen : F.length = V.length
        · rw [Parse_triple_any Q m F V hlen] at h
          cases h
          exact ⟨m, F, V, rfl, hlen, rfl, rfl⟩
        · rw [Parse_mismatch_any Q m F V hlen] at h
          cases h
    | null => simp [Parse, jsonUnmarshal] at h
    | bool b => simp [Parse, jsonUnmarshal] at h
    | num n => simp [Parse, jsonUnmarshal] at h
    | str t => simp [Parse, jsonUnmarshal] at h
    | obj kvs => simp [Parse, jsonUnmarshal] at h

/-! ### What flattening leaves untouched -/

/-- The result of `falttenNestedRSQL` on a slice comes from its loop. -/
theorem falttenNestedRSQL_arr_inv (fuel : Nat) (fs : List JVal) (idxs : List Nat) (f1 : JVal)
    (e : Option Fault) (h : falttenNestedRSQL fuel (.arr fs) idxs = some (f1, e)) :
    ∃ n fs1, fuel = n + 1 ∧ f1 = .arr fs1 ∧
      flattenRange (falttenNestedRSQL n) fs idxs = some (fs1, e) := by
  cases fuel with
  | zero => simp [falttenNestedRSQL] at h
  | succ n =>
    simp only [falttenNestedRSQL] at h
    split at h
    · cases h
    · rename_i fs1 err hr
      cases h
      exact ⟨n, fs1, rfl, rfl, hr⟩

/-- One loop iteration leaves the slice as it was, or overwrites slot 1, or overwrites slot
1 and then slot `v`. -/
theorem flattenBody_shape (recur : JVal → List Nat → Option (JVal × Option Fault))
    (fs : List JVal) (v : Nat) (r : List JVal × Option Fault) :
    flattenBody recur fs v = some r →
      r.1 = fs ∨ ∃ a, r.1 = fs.set 1 a ∨ ∃ b, r.1 = (fs.set 1 a).set v b := by
  unfold flattenBody
  repeat' split
  all_goals try simp only []
  all_goals repeat' split
  all_goals intro h
  all_goals first
    | (cases h; done)
    | (cases h; exact Or.inl rfl)
    | (cases h; exact Or.inr ⟨_, Or.inl rfl⟩)
    | (cases h; exact Or.inr ⟨_, Or.inr ⟨_, rfl⟩⟩)

/-- One loop iteration keeps the length of the slice and every slot other than 1 and `v`. -/
theorem flattenBody_frame (recur : JVal → List Nat → Option (JVal × Option Fault))
    (fs : List JVal) (v : Nat) (r : List JVal × Option Fault)
    (h : flattenBody recur fs v = some r) :
    r.1.length = fs.length ∧ ∀ i, i ≠ v → i ≠ 1 → r.1[i]? = fs[i]? := by
  rcases flattenBody_shape recur fs v r h with h1 | ⟨a, h1 | ⟨b, h1⟩⟩
  · rw [h1]; exact ⟨rfl, fun _ _ _ => rfl⟩
  · rw [h1]
    refine ⟨by simp, fun i _ hi1 => ?_⟩
    rw [List.getElem?_set_ne (Ne.symm hi1)]
  · rw [h1]
    refine ⟨by simp, fun i hiv hi1 => ?_⟩
    rw [List.getElem?_set_ne (Ne.symm hiv), List.getElem?_set_ne (Ne.symm hi1)]

/-- The loop keeps the length of the slice and every slot other than 1 and those of the
index list. -/
theorem flattenRange_frame (recur : JVal → List Nat → Option (JVal × Option Fault))
    (idxs : List Nat) :
    ∀ (fs : List JVal) (r : List JVal × Option Fault), flattenRange recur fs idxs = some r →
      r.1.length = fs.length ∧ ∀ i, i ∉ idxs → i ≠ 1 → r.1[i]? = fs[i]? := by
  induction idxs with
  | nil =>
    intro fs r h
    simp only [flattenRange] at h
    cases h
    exact ⟨rfl, fun _ _ _ => rfl⟩
  | cons v rest ih =>
    intro fs r h
    simp only [flattenRange] at h
    split at h
    · cases h
    · rename_i fs1 e hb
      cases h
      obtain ⟨hl, hf⟩ := flattenBody_frame recur fs v _ hb
      exact ⟨hl, fun i hi hi1 => hf i (fun hv => hi (hv ▸ List.mem_cons_self _ _)) hi1⟩
    · rename_i fs1 hb
      obtain ⟨hl, hf⟩ := flattenBody_frame recur fs v _ hb
      obtain ⟨hl2, hf2⟩ := ih fs1 r h
      refine ⟨hl2.trans hl, fun i hi hi1 => ?_⟩
      rw [hf2 i (fun hm => hi (List.mem_cons_of_mem _ hm)) hi1]
      exact hf i (fun hv => hi (hv ▸ List.mem_cons_self _ _)) hi1

/-- On a value that is no array the detector finds nothing or panics. -/
theorem findNestedRSQL_not_array (tv : JVal) (h : tv.isArray = false) (count : Nat)
    (indexes : List Nat) (hf : findNestedRSQL tv = .ok (count, indexes)) : count = 0 := by
  cases tv with
  | arr xs => simp [JVal.isArray] at h
  | str s => simp [findNestedRSQL] at hf; exact hf.1.symm
  | obj kvs =>
    cases kvs with
    | nil => simp [findNestedRSQL] at hf; exact hf.1.symm
    | cons kv rest => simp [findNestedRSQL] at hf
  | null => simp [findNestedRSQL] at hf
  | bool b => simp [findNestedRSQL] at hf
  | num n => simp [findNestedRSQL] at hf

/-- An element of a slice without arrays is no array. -/
theorem isArray_false_of_any_false (tf : List JVal) (h : tf.any JVal.isArray = false)
    (v : Nat) (tv : JVal) (hv : tf[v]? = some tv) : tv.isArray = false := by
  have hmem : tv ∈ tf := by
    obtain ⟨hlt, heq⟩ := List.getElem?_eq_some.mp hv
    exact heq ▸ List.getElem_mem hlt
  have hall := List.any_eq_false.mp h tv hmem
  simpa using hall

/-- When the entry at index 1 is not classified nested, one loop iteration changes nothing
and ends in an error or a panic. -/
theorem flattenBody_unclassified (recur : JVal → List Nat → Option (JVal × Option Fault))
    (fs : List JVal) (v : Nat) (hn1 : ∀ x, fs[1]? = some x → classifiedNested x = false) :
    ∃ e, flattenBody recur fs v = some (fs, some e) := by
  unfold flattenBody
  split
  · rename_i tf h1
    have hany : tf.any JVal.isArray = false := by
      have := hn1 _ h1
      simpa [classifiedNested] using this
    split
    · exact ⟨_, rfl⟩
    · rename_i tv h2
      have htv := isArray_false_of_any_false tf hany v tv h2
      split
      · exact ⟨_, rfl⟩
      · rename_i count indexes h3
        have hc : count = 0 := findNestedRSQL_not_array tv htv count indexes h3
        subst hc
        have hset : tf.set v tv = tf := by
          apply List.ext_getElem?
          intro i
          by_cases hiv : v = i
          · subst hiv
            rw [List.getElem?_set_self (by
              by_contra hge
              rw [List.getElem?_eq_none (by omega)] at h2
              cases h2)]
            exact h2.symm
          · rw [List.getElem?_set_ne hiv]
        have hfs : fs.set 1 (.arr tf) = fs := by
          apply List.ext_getElem?
          intro i
          by_cases hi1 : 1 = i
          · subst hi1
            rw [List.getElem?_set_self (by
              by_contra hge
              rw [List.getElem?_eq_none (by omega)] at h1
              cases h1)]
            exact h1.symm
          · rw [List.getElem?_set_ne hi1]
        have hu : unmarshalToRSQLStruct tf = .error .ErrInvalidRestfulSQL := by
          rcases invalid_or_triple tf with hi | ⟨m, F, V, rfl⟩
          · exact unmarshal_of_invalid tf hi
          · simp [JVal.isArray] at hany
        simp only [gt_iff_lt, Nat.lt_irrefl, ↓reduceIte, hset, hfs, hu]
        exact ⟨_, rfl⟩
  · exact ⟨_, rfl⟩

/-- When the entry at index 1 is not classified nested, the loop changes nothing. -/
theorem flattenRange_unclassified (recur : JVal → List Nat → Option (JVal × Option Fault))
    (fs : List JVal) (idxs : List Nat)
    (hn1 : ∀ x, fs[1]? = some x → classifiedNested x = false)
    (r : List JVal × Option Fault) (h : flattenRange recur fs idxs = some r) : r.1 = fs := by
  cases idxs with
  | nil => simp only [flattenRange] at h; cases h; rfl
  | cons v rest =>
    obtain ⟨e, he⟩ := flattenBody_unclassified recur fs v hn1
    simp only [flattenRange, he] at h
    cases h
    rfl

/-- The index list stored in a decoded record is the list of classified indexes. -/
theorem decodedRSQL_indexes (m : String) (F V : List JVal) :
    (decodedRSQL m F V).nestedRSQLIndexes = nestedFrom 0 F := by
  simp [decodedRSQL, findNestedLoop_eq]

/-- An index the detector did not list holds an entry that is not classified nested. -/
theorem unclassified_of_not_mem (F : List JVal) (i : Nat) (h : i ∉ nestedFrom 0 F) :
    ∀ x, F[i]? = some x → classifiedNested x = false := by
  intro x hx
  by_contra hc
  have hc1 : classifiedNested x = true := by simpa using hc
  exact h ((mem_nestedFrom F 0 i).mpr ⟨i, x, by omega, hx, hc1⟩)

/-- What `Compile` leaves in the parser: the same record but for `Fields`. -/
theorem Compile_keeps (r r1 : Parser) (res : Except Fault String) (q : RSQL)
    (hq : r.Query = some q) (h : Compile r = some (r1, res)) :
    ∃ q1, r1.Query = some q1 ∧ q1.Values = q.Values ∧ q1.Mode = q.Mode ∧
      q1.nestedRSQLIndexes = q.nestedRSQLIndexes ∧ r1.rawQuery = r.rawQuery := by
  unfold Compile at h
  rw [hq] at h
  simp only [] at h
  repeat' split at h
  all_goals first
    | (cases h; done)
    | (cases h; exact ⟨_, rfl, rfl, rfl, rfl, rfl⟩)
    | (cases h; exact ⟨q, hq, rfl, rfl, rfl, rfl⟩)

/-- C11: on the fields and the index list of a decoded expression, whenever
`falttenNestedRSQL` returns, with an error or without, the slice has kept its length and
every entry at an index outside the list; with an empty list it returns no error and
leaves the slice as it was.  `Values` is no argument of the call, and `Compile` leaves it
as it was. -/
theorem flatten_keeps_unlisted_entries (raw : List JVal) (q : RSQL)
    (hq : unmarshalToRSQLStruct raw = .ok q) (fuel : Nat) (f1 : JVal) (e : Option Fault)
    (h : falttenNestedRSQL fuel (.arr q.Fields) q.nestedRSQLIndexes = some (f1, e)) :
    (∃ fs1, f1 = .arr fs1 ∧ fs1.length = q.Fields.length ∧
      ∀ i, i ∉ q.nestedRSQLIndexes → fs1[i]? = q.Fields[i]?) ∧
    (q.nestedRSQLIndexes = [] →
      falttenNestedRSQL (fuel + 1) (.arr q.Fields) q.nestedRSQLIndexes
        = some (.arr q.Fields, none)) ∧
    (∀ (r r1 : Parser) (res : Except Fault String), r.Query = some q →
      Compile r = some (r1, res) → ∃ q1, r1.Query = some q1 ∧ q1.Values = q.Values) := by
  obtain ⟨m, F, V, _, rfl⟩ := unmarshal_ok_inv raw q hq
  rw [decodedRSQL_indexes] at h ⊢
  have hF : (decodedRSQL m F V).Fields = F := rfl
  rw [hF] at h ⊢
  obtain ⟨n, fs1, _, rfl, hr⟩ := falttenNestedRSQL_arr_inv fuel F _ f1 e h
  refine ⟨⟨fs1, rfl, ?_, ?_⟩, ?_, ?_⟩
  · exact (flattenRange_frame _ _ F _ hr).1
  · intro i hi
    by_cases h1 : 1 ∈ nestedFrom 0 F
    · exact (flattenRange_frame _ _ F _ hr).2 i hi (fun hi1 => hi (hi1 ▸ h1))
    · have := flattenRange_unclassified _ F _ (unclassified_of_not_mem F 1 h1) _ hr
      simp only at this
      rw [this]
  · intro hnil
    rw [hnil]
    simp [falttenNestedRSQL, flattenRange]
  · intro r r1 res hrq hc
    obtain ⟨q1, h1, h2, _⟩ := Compile_keeps r r1 res _ hrq hc
    exact ⟨q1, h1, h2⟩

/-- C11 on `["AND", ["b", ["OR", ["c"], [2]]], [2, ""]]`: the entry at index 0 is kept. -/
theorem flatten_keeps_unlisted_entries_witness :
    unmarshalToRSQLStruct oneNested = .ok (decodedRSQL "AND" oneNestedFields [jnum "2", .str ""]) ∧
    falttenNestedRSQL 3 (.arr oneNestedFields) [1]
      = some (.arr [.str "b", .str "(c = 2)"], none) ∧
    ∃ fs1, JVal.arr [.str "b", .str "(c = 2)"] = .arr fs1 ∧ fs1.length = oneNestedFields.length ∧
      ∀ i, i ∉ [1] → fs1[i]? = oneNestedFields[i]? :=
  ⟨rfl, rfl, (flatten_keeps_unlisted_entries oneNested
    (decodedRSQL "AND" oneNestedFields [jnum "2", .str ""]) rfl 3
    (.arr [.str "b", .str "(c = 2)"]) none rfl).1⟩

/-! ### More fuel changes nothing -/

/-- One loop iteration that returns with `recur1` returns the same with any `recur2` that
agrees with `recur1` wherever `recur1` returns. -/
theorem flattenBody_mono (recur1 recur2 : JVal → List Nat → Option (JVal × Option Fault))
    (hle : ∀ x idx r, recur1 x idx = some r → recur2 x idx = some r)
    (fs : List JVal) (v : Nat) (r : List JVal × Option Fault)
    (h : flattenBody recur1 fs v = some r) : flattenBody recur2 fs v = some r := by
  unfold flattenBody at h ⊢
  split
  · rename_i tf h1
    rw [h1] at h
    simp only at h
    split
    · rename_i h2
      rw [h2] at h
      exact h
    · rename_i tv h2
      rw [h2] at h
      simp only at h
      split
      · rename_i e h3
        rw [h3] at h
        exact h
      · rename_i count indexes h3
        rw [h3] at h
        simp only at h
        by_cases hc : count > 0
        · simp only [hc, ↓reduceIte] at h ⊢
          cases hr : recur1 tv indexes with
          | none => rw [hr] at h; cases h
          | some r1 =>
            rw [hr] at h
            rw [hle tv indexes r1 hr]
            exact h
        · simp only [hc, ↓reduceIte] at h ⊢
          exact h
  · rename_i hne
    split at h
    · rename_i tf h1
      exact absurd h1 (hne tf)
    · exact h

/-- The loop is monotone in the recursive call in the same sense. -/
theorem flattenRange_mono (recur1 recur2 : JVal → List Nat → Option (JVal × Option Fault))
    (hle : ∀ x idx r, recur1 x idx = some r → recur2 x idx = some r) (idxs : List Nat) :
    ∀ (fs : List JVal) (r : List JVal × Option Fault),
      flattenRange recur1 fs idxs = some r → flattenRange recur2 fs idxs = some r := by
  induction idxs with
  | nil => intro fs r h; exact h
  | cons v rest ih =>
    intro fs r h
    simp only [flattenRange] at h ⊢
    cases hb : flattenBody recur1 fs v with
    | none => rw [hb] at h; cases h
    | some r1 =>
      rw [hb] at h
      rw [flattenBody_mono recur1 recur2 hle fs v r1 hb]
      obtain ⟨fs1, e⟩ := r1
      cases e with
      | some e1 => exact h
      | none => exact ih fs1 r h

/-- A result obtained with some fuel is obtained with one more unit of fuel. -/
theorem falttenNestedRSQL_succ (fuel : Nat) :
    ∀ (x : JVal) (idx : List Nat) (r : JVal × Option Fault),
      falttenNestedRSQL fuel x idx = some r → falttenNestedRSQL (fuel + 1) x idx = some r := by
  induction fuel with
  | zero => intro x idx r h; simp [falttenNestedRSQL] at h
  | succ n ih =>
    intro x idx r h
    cases x with
    | arr fs =>
      simp only [falttenNestedRSQL] at h ⊢
      cases hr : flattenRange (falttenNestedRSQL n) fs idx with
      | none => rw [hr] at h; cases h
      | some r1 =>
        rw [hr] at h
        rw [flattenRange_mono _ _ ih idx fs r1 hr]
        exact h
    | null => exact h
    | bool b => exact h
    | num k => exact h
    | str s => exact h
    | obj kvs => exact h

/-- A result obtained with some fuel is obtained with any larger fuel. -/
theorem falttenNestedRSQL_add (fuel k : Nat) (x : JVal) (idx : List Nat)
    (r : JVal × Option Fault) (h : falttenNestedRSQL fuel x idx = some r) :
    falttenNestedRSQL (fuel + k) x idx = some r := by
  induction k with
  | zero => exact h
  | succ j ih => exact falttenNestedRSQL_succ (fuel + j) x idx r ih

/-- A result obtained with some fuel is the result with the fuel `Compile` supplies. -/
theorem falttenNestedRSQL_canonical (fuel : Nat) (x : JVal) (idx : List Nat)
    (r : JVal × Option Fault) (h : falttenNestedRSQL fuel x idx = some r) :
    falttenNestedRSQL (jdepth x + 1) x idx = some r := by
  obtain ⟨f1, e, h1, _⟩ := falttenNestedRSQL_total (jdepth x + 1) x idx (by omega)
  have h2 := falttenNestedRSQL_add (jdepth x + 1) fuel x idx _ h1
  have h3 := falttenNestedRSQL_add fuel (jdepth x + 1) x idx _ h
  rw [Nat.add_comm] at h3
  rw [h3] at h2
  rw [h1]
  exact h2.symm

/-- C15: `falttenNestedRSQL` terminates on every decoded value and index list.  With any
fuel above the nesting depth of `fields` it returns, and the result is the one obtained
with fuel `jdepth fields + 1`, no deeper than `fields`.  One loop iteration either does
not use its recursive call at all (so it stops where the detector returns count 0), or
calls it on an element `tv` of the array at `fieldsSlice[1]` on which the detector
counted at least one nested entry, at least two levels shallower than the slice. -/
theorem falttenNestedRSQL_terminates (fields : JVal) (idxs : List Nat) (k : Nat) :
    (∃ f1 e, falttenNestedRSQL (jdepth fields + 1 + k) fields idxs = some (f1, e) ∧
      falttenNestedRSQL (jdepth fields + 1) fields idxs = some (f1, e) ∧
      jdepth f1 ≤ jdepth fields) ∧
    (∀ (recur : JVal → List Nat → Option (JVal × Option Fault)) (fs : List JVal) (v : Nat),
      flattenBody recur fs v = flattenBody (fun _ _ => none) fs v ∨
      ∃ tf tv count indexes, fs[1]? = some (.arr tf) ∧ tf[v]? = some tv ∧
        findNestedRSQL tv = .ok (count, indexes) ∧ 0 < count ∧
        jdepth tv + 2 ≤ jdepth (.arr fs)) := by
  constructor
  · obtain ⟨f1, e, h1, h2⟩ := falttenNestedRSQL_total (jdepth fields + 1) fields idxs (by omega)
    exact ⟨f1, e, falttenNestedRSQL_add _ k fields idxs _ h1, h1, h2⟩
  · intro recur fs v
    cases h1 : (fs[1]? : Option JVal) with
    | none => left; simp [flattenBody, h1]
    | some x =>
      cases x with
      | arr tf =>
        cases h2 : (tf[v]? : Option JVal) with
        | none => left; simp [flattenBody, h1, h2]
        | some tv =>
          cases h3 : findNestedRSQL tv with
          | error e => left; simp [flattenBody, h1, h2, h3]
          | ok p =>
            obtain ⟨count, indexes⟩ := p
            by_cases hc : count > 0
            · right
              refine ⟨tf, tv, count, indexes, rfl, h2, h3, hc, ?_⟩
              have ha := jdepth_le_of_getElem? tf v tv h2
              have hb := jdepth_le_of_getElem? fs 1 _ h1
              simp only [jdepth] at hb ⊢
              omega
            · left; simp [flattenBody, h1, h2, h3, hc]
      | null => left; simp [flattenBody, h1]
      | bool b => left; simp [flattenBody, h1]
      | num n => left; simp [flattenBody, h1]
      | str s => left; simp [flattenBody, h1]
      | obj kvs => left; simp [flattenBody, h1]

/-! ### Flattened slots and panics -/

/-- C12 (fails on the code): on the fields `[["AND",["x"],[1]], ["AND",["y"],["z"]]]`, with
the index list `[0, 1]` the detector returns, `falttenNestedRSQL` returns without error and
leaves `(y = 'z')` in both slots, while the triple that was at index 0 compiles to
`(x = 1)`.  On `["b", ["OR", ["c"], [2]]]` it leaves `["b", "(c = 2)"]`, as
`TestFalttenNestedRSQL` asserts. -/
theorem flatten_slot_zero_holds_other_entry :
    findNestedRSQL (.arr twoTriples) = .ok (2, [0, 1]) ∧
    falttenNestedRSQL (jdepth (.arr twoTriples) + 1) (.arr twoTriples) [0, 1]
      = some (.arr [.str "(y = 'z')", .str "(y = 'z')"], none) ∧
    (unmarshalToRSQLStruct [.str "AND", .arr [.str "x"], .arr [jnum "1"]]).bind
        (fun rsql => buildString rsql.Mode rsql.Fields rsql.Values) = .ok "(x = 1)" ∧
    falttenNestedRSQL (jdepth (.arr oneNestedFields) + 1) (.arr oneNestedFields) [1]
      = some (.arr [.str "b", .str "(c = 2)"], none) := by
  refine ⟨by decide, rfl, by decide, rfl⟩

/-- C13 (fails on the code): three inputs that `Parse` accepts and on which `Compile`
panics.  On `["AND", [["OR",["c"],[2]]], [""]]` the index `fieldsSlice[1]` is out of
range; on `["OR", [["AND",["x"],[1]], "y"], ["", 2]]` the type assertion on
`fieldsSlice[1]` fails; on `["AND", ["a", [["c"], 5, [2]]], [1, ""]]` the detector takes
the `reflect` length of the number `5`. -/
theorem compile_panics_after_parse :
    ((∃ rsql, (Parse (NewRestfulSQLParser (.value singleNested))).2 = .ok rsql) ∧
      parseAndCompile (.value singleNested) = some (.error .panic)) ∧
    ((∃ rsql, (Parse (NewRestfulSQLParser (.value nestedThenName))).2 = .ok rsql) ∧
      parseAndCompile (.value nestedThenName) = some (.error .panic)) ∧
    ((∃ rsql, (Parse (NewRestfulSQLParser (.value numberInEntry))).2 = .ok rsql) ∧
      findNestedRSQL (jnum "5") = .error .panic ∧
      parseAndCompile (.value numberInEntry) = some (.error .panic)) := by
  refine ⟨⟨⟨_, rfl⟩, by decide⟩, ⟨⟨_, rfl⟩, by decide⟩, ⟨_, rfl⟩, by decide, by decide⟩

/-! ### Which index lists compile -/

/-- A loop iteration that ends without error has overwritten slot 1, which held an array,
and then slot `v`, which exists, with a string. -/
theorem flattenBody_ok_shape (recur : JVal → List Nat → Option (JVal × Option Fault))
    (fs : List JVal) (v : Nat) (fs1 : List JVal) :
    flattenBody recur fs v = some (fs1, none) →
      ∃ tf1 s, fs1 = (fs.set 1 (.arr tf1)).set v (.str s) ∧ v < fs.length ∧
        ∃ tf, fs[1]? = some (.arr tf) := by
  unfold flattenBody
  repeat' split
  all_goals try simp only []
  all_goals repeat' split
  all_goals intro h
  all_goals first
    | (cases h; done)
    | (cases h
       rename_i hv
       exact ⟨_, _, rfl, by simpa using hv, _, by assumption⟩)

/-- A loop iteration that ends without error found at slot 1 an entry classified nested. -/
theorem flattenBody_ok_classified (recur : JVal → List Nat → Option (JVal × Option Fault))
    (fs : List JVal) (v : Nat) (fs1 : List JVal) (h : flattenBody recur fs v = some (fs1, none)) :
    ∃ x, fs[1]? = some x ∧ classifiedNested x = true := by
  by_contra hno
  have hn1 : ∀ x, fs[1]? = some x → classifiedNested x = false := by
    intro x hx
    by_contra hc
    exact hno ⟨x, hx, by simpa using hc⟩
  obtain ⟨e, he⟩ := flattenBody_unclassified recur fs v hn1
  rw [he] at h
  cases h

/-- Once slot 1 holds a string, a loop iteration panics and changes nothing. -/
theorem flattenBody_str (recur : JVal → List Nat → Option (JVal × Option Fault))
    (fs : List JVal) (v : Nat) (s : String) (h : fs[1]? = some (.str s)) :
    flattenBody recur fs v = some (fs, some .panic) := by
  simp [flattenBody, h]

/-- After an iteration for index 1 that ends without error, slot 1 holds a string. -/
theorem flattenBody_one_str (recur : JVal → List Nat → Option (JVal × Option Fault))
    (fs : List JVal) (fs1 : List JVal) (h : flattenBody recur fs 1 = some (fs1, none)) :
    ∃ s, fs1[1]? = some (.str s) := by
  obtain ⟨tf1, s, rfl, hlt, _⟩ := flattenBody_ok_shape recur fs 1 fs1 h
  exact ⟨s, by rw [List.getElem?_set_self (by simpa using hlt)]⟩

/-- A loop that ends without error and starts with index 1 has no further index. -/
theorem flattenRange_one_last (recur : JVal → List Nat → Option (JVal × Option Fault))
    (fs : List JVal) (rest : List Nat) (fs1 : List JVal)
    (h : flattenRange recur fs (1 :: rest) = some (fs1, none)) :
    rest = [] ∧ ∃ s, fs1[1]? = some (.str s) := by
  simp only [flattenRange] at h
  split at h
  · cases h
  · cases h
  · rename_i fs2 hb
    obtain ⟨s, hs⟩ := flattenBody_one_str recur fs fs2 hb
    cases rest with
    | nil =>
      simp only [flattenRange] at h
      cases h
      exact ⟨rfl, s, hs⟩
    | cons w rest2 =>
      simp only [flattenRange, flattenBody_str recur fs2 w s hs] at h
      cases h

/-- A loop that ends without error over a list containing 1 leaves a string in slot 1. -/
theorem flattenRange_ok_str (recur : JVal → List Nat → Option (JVal × Option Fault))
    (idxs : List Nat) :
    ∀ (fs fs1 : List JVal), flattenRange recur fs idxs = some (fs1, none) → 1 ∈ idxs →
      ∃ s, fs1[1]? = some (.str s) := by
  induction idxs with
  | nil => intro fs fs1 _ hm; cases hm
  | cons v rest ih =>
    intro fs fs1 h hm
    by_cases hv : v = 1
    · subst hv
      exact (flattenRange_one_last recur fs rest fs1 h).2
    · have hm2 : 1 ∈ rest := by
        rcases List.mem_cons.mp hm with h1 | h1
        · exact absurd h1.symm hv
        · exact h1
      simp only [flattenRange] at h
      split at h
      · cases h
      · cases h
      · rename_i fs2 hb
        exact ih fs2 fs1 h hm2

/-- A loop over the classified indexes of its slice that ends without error ran over `[1]`
or `[0, 1]`. -/
theorem flattenRange_ok_indexes (recur : JVal → List Nat → Option (JVal × Option Fault))
    (F fs1 : List JVal) (hne : nestedFrom 0 F ≠ [])
    (h : flattenRange recur F (nestedFrom 0 F) = some (fs1, none)) :
    nestedFrom 0 F = [1] ∨ nestedFrom 0 F = [0, 1] := by
  have hsorted := pairwise_nestedFrom F 0
  have hmem1 : 1 ∈ nestedFrom 0 F := by
    cases hidx : nestedFrom 0 F with
    | nil => exact absurd hidx hne
    | cons v rest =>
      rw [hidx] at h
      simp only [flattenRange] at h
      split at h
      · cases h
      · cases h
      · rename_i fs2 hb
        obtain ⟨x, hx, hc⟩ := flattenBody_ok_classified recur F v fs2 hb
        rw [← hidx]
        exact (mem_nestedFrom F 0 1).mpr ⟨1, x, by omega, hx, hc⟩
  revert h hsorted hmem1
  generalize nestedFrom 0 F = idxs
  intro h hsorted hmem1
  match idxs, h, hsorted, hmem1 with
  | [], _, _, hm => cases hm
  | 1 :: rest, h, _, _ =>
    left
    rw [(flattenRange_one_last recur F rest fs1 h).1]
  | 0 :: rest, h, hs, hm =>
    right
    have hm2 : 1 ∈ rest := by
      rcases List.mem_cons.mp hm with h1 | h1
      · cases h1
      · exact h1
    have hs2 := List.pairwise_cons.mp hs
    simp only [flattenRange] at h
    split at h
    · cases h
    · cases h
    · rename_i fs2 hb
      match rest, h, hs2, hm2 with
      | [], _, _, hm3 => cases hm3
      | w :: rest2, h, hs3, hm3 =>
        have hw : w = 1 := by
          rcases List.mem_cons.mp hm3 with h1 | h1
          · exact h1.symm
          · have h0 := (List.pairwise_cons.mp hs3.2).1 1 h1
            have h00 := hs3.1 w (List.mem_cons_self _ _)
            omega
        subst hw
        rw [(flattenRange_one_last recur fs2 rest2 fs1 h).1]
  | (n + 2) :: rest, _, hs, hm =>
    exfalso
    rcases List.mem_cons.mp hm with h1 | h1
    · omega
    · have := (List.pairwise_cons.mp hs).1 1 h1
      omega

/-- What a `Compile` that returns a string went through. -/
theorem Compile_ok_inv (r r2 : Parser) (q : RSQL) (s : String) (hq : r.Query = some q)
    (h : Compile r = some (r2, .ok s)) :
    ∃ fs1, falttenNestedRSQL (jdepth (.arr q.Fields) + 1) (.arr q.Fields) q.nestedRSQLIndexes
        = some (.arr fs1, none) ∧
      buildString q.Mode fs1 q.Values = .ok s ∧
      r2 = { r with Query := some { q with Fields := fs1 } } := by
  unfold Compile at h
  rw [hq] at h
  simp only [] at h
  split at h
  · cases h
  · rename_i fields1 err hfl
    split at h
    · cases h
    · split at h
      · cases h
      · rename_i s1 hb
        cases h
        exact ⟨fields1, hfl, hb, rfl⟩
  · cases h

/-- A `Compile` that returns a string after an accepted input with a non-empty stored
index list ran over `[1]` or `[0, 1]`. -/
theorem Compile_ok_indexes (query : RawJSON) (r1 r2 : Parser) (rsql : RSQL) (s : String)
    (hP : Parse (NewRestfulSQLParser query) = (r1, .ok rsql))
    (hne : rsql.nestedRSQLIndexes ≠ [])
    (hC : Compile r1 = some (r2, .ok s)) :
    rsql.nestedRSQLIndexes = [1] ∨ rsql.nestedRSQLIndexes = [0, 1] := by
  obtain ⟨m, F, V, _, _, rfl, rfl⟩ := Parse_ok_inv none query r1 rsql hP
  obtain ⟨fs1, hfl, _, _⟩ := Compile_ok_inv _ r2 _ s rfl hC
  rw [decodedRSQL_indexes] at hne hfl ⊢
  obtain ⟨n, fs2, _, _, hr⟩ := falttenNestedRSQL_arr_inv _ F _ _ _ hfl
  exact flattenRange_ok_indexes _ F fs2 hne hr

/-- C17: when `Parse` accepts an input and the stored index list is not empty, `Compile`
ends, and either that list is `[1]` or `[0, 1]` (index 1 is nested and is the largest
nested index), or `Compile` returns an error or panics; so a string is returned only for
these two lists. -/
theorem compile_ok_index_list (query : RawJSON) (r1 : Parser) (rsql : RSQL)
    (hP : Parse (NewRestfulSQLParser query) = (r1, .ok rsql))
    (hne : rsql.nestedRSQLIndexes ≠ []) :
    ∃ r2 res, Compile r1 = some (r2, res) ∧
      (rsql.nestedRSQLIndexes = [1] ∨ rsql.nestedRSQLIndexes = [0, 1] ∨
        ∃ f, res = .error f) := by
  obtain ⟨r2, res, hC⟩ := Compile_total r1
  refine ⟨r2, res, hC, ?_⟩
  cases res with
  | error f => exact Or.inr (Or.inr ⟨f, rfl⟩)
  | ok s =>
    rcases Compile_ok_indexes query r1 r2 rsql s hP hne hC with h | h
    · exact Or.inl h
    · exact Or.inr (Or.inl h)

/-- C17 on `["AND", ["b", ["OR", ["c"], [2]]], [2, ""]]`, whose index list is `[1]` and
which compiles to `(b = 2) AND ((c = 2))`. -/
theorem compile_ok_index_list_witness :
    (Parse (NewRestfulSQLParser (.value (.arr oneNested)))
      = ({ Query := some (decodedRSQL "AND" oneNestedFields [jnum "2", .str ""]),
           rawQuery := .value (.arr oneNested) },
         .ok (decodedRSQL "AND" oneNestedFields [jnum "2", .str ""]))) ∧
    (decodedRSQL "AND" oneNestedFields [jnum "2", .str ""]).nestedRSQLIndexes ≠ [] ∧
    (Compile { Query := some (decodedRSQL "AND" oneNestedFields [jnum "2", .str ""]),
               rawQuery := .value (.arr oneNested) }).map Prod.snd
      = some (.ok "(b = 2) AND ((c = 2))") ∧
    ∃ r2 res, Compile { Query := some (decodedRSQL "AND" oneNestedFields [jnum "2", .str ""]),
                        rawQuery := .value (.arr oneNested) } = some (r2, res) ∧
      ((decodedRSQL "AND" oneNestedFields [jnum "2", .str ""]).nestedRSQLIndexes = [1] ∨
        (decodedRSQL "AND" oneNestedFields [jnum "2", .str ""]).nestedRSQLIndexes = [0, 1] ∨
        ∃ f, res = .error f) :=
  ⟨rfl, by decide, rfl,
    compile_ok_index_list (.value (.arr oneNested)) _ _ rfl (by decide)⟩

/-! ### A second `Compile` -/

/-- One loop iteration of `buildString` never panics. -/
theorem buildQuery_total (v value : JVal) : ∃ q, buildQuery v value = .ok q := by
  cases value with
  | str s =>
    by_cases hs : s = ""
    · simp [buildQuery, typeName, hs]
    · simp [buildQuery, typeName, hs]
  | null => simp [buildQuery, typeName]
  | bool b => simp [buildQuery, typeName]
  | num n => simp [buildQuery, typeName]
  | arr xs => simp [buildQuery, typeName]
  | obj kvs => simp [buildQuery, typeName]

/-- The loop of `buildString` returns when there are at least as many values as fields. -/
theorem buildQueries_total (fs : List JVal) :
    ∀ (pre vs : List JVal), fs.length ≤ vs.length →
      ∃ qs, buildQueries (pre ++ vs) pre.length fs = .ok qs := by
  induction fs with
  | nil => intro pre vs _; exact ⟨[], rfl⟩
  | cons f rest ih =>
    intro pre vs hlen
    cases vs with
    | nil => simp at hlen
    | cons v vs1 =>
      have h1 : rest.length ≤ vs1.length := by simpa using hlen
      obtain ⟨qs, h2⟩ := ih (pre ++ [v]) vs1 h1
      simp only [List.append_assoc, List.singleton_append, List.length_append,
        List.length_singleton] at h2
      have h3 : (pre ++ v :: vs1)[pre.length]? = some v := by
        rw [List.getElem?_append_right (le_refl _)]; simp
      obtain ⟨q, hq⟩ := buildQuery_total f v
      exact ⟨q :: qs, by simp [buildQueries, h3, hq, h2]⟩

/-- With as many values as fields `buildString` returns a string. -/
theorem buildString_total (mode : String) (fs vs : List JVal) (hlen : fs.length = vs.length) :
    ∃ s, buildString mode fs vs = .ok s := by
  obtain ⟨qs, h⟩ := buildQueries_total fs [] vs (by omega)
  simp only [List.nil_append, List.length_nil] at h
  simp [buildString, h]

/-- With a string in slot 1 and a non-empty index list, `falttenNestedRSQL` panics and
changes nothing. -/
theorem falttenNestedRSQL_str (n : Nat) (fs : List JVal) (idxs : List Nat) (t : String)
    (h : fs[1]? = some (.str t)) (hne : idxs ≠ []) :
    falttenNestedRSQL (n + 1) (.arr fs) idxs = some (.arr fs, some .panic) := by
  cases idxs with
  | nil => exact absurd rfl hne
  | cons v rest =>
    simp [falttenNestedRSQL, flattenRange, flattenBody_str _ fs v t h]

/-- C18: after an accepted input, either the stored index list is empty, and `Compile`
returns a string, leaves the parser as it was and so returns the same string when called
again; or the list is not empty, and whenever a first `Compile` returns a string it
leaves the list unchanged and a string in `Fields[1]`, so that a second `Compile` on the
same parser panics and returns no string. -/
theorem compile_twice (query : RawJSON) (r1 : Parser) (rsql : RSQL)
    (hP : Parse (NewRestfulSQLParser query) = (r1, .ok rsql)) :
    (rsql.nestedRSQLIndexes = [] ∧
      ∃ r2 s, Compile r1 = some (r2, .ok s) ∧ Compile r2 = some (r2, .ok s)) ∨
    (rsql.nestedRSQLIndexes ≠ [] ∧
      ∀ r2 s, Compile r1 = some (r2, .ok s) →
        (∃ q2 t, r2.Query = some q2 ∧ q2.nestedRSQLIndexes = rsql.nestedRSQLIndexes ∧
          q2.Fields[1]? = some (.str t)) ∧
        Compile r2 = some (r2, .error .panic)) := by
  obtain ⟨m, F, V, _, hlen, rfl, rfl⟩ := Parse_ok_inv none query r1 rsql hP
  by_cases hnil : (decodedRSQL m F V).nestedRSQLIndexes = []
  · left
    refine ⟨hnil, ?_⟩
    obtain ⟨s, hs⟩ := buildString_total m F V hlen
    have hC : Compile { Query := some (decodedRSQL m F V), rawQuery := query }
        = some ({ Query := some (decodedRSQL m F V), rawQuery := query }, .ok s) := by
      have hs1 : buildString (decodedRSQL m F V).Mode (decodedRSQL m F V).Fields
          (decodedRSQL m F V).Values = .ok s := hs
      have key : falttenNestedRSQL (jdepth (.arr (decodedRSQL m F V).Fields) + 1)
          (.arr (decodedRSQL m F V).Fields) (decodedRSQL m F V).nestedRSQLIndexes
          = some (.arr (decodedRSQL m F V).Fields, none) := by
        rw [hnil]
        simp [falttenNestedRSQL, flattenRange]
      simp only [Compile, key, hs1]
    exact ⟨_, s, hC, hC⟩
  · right
    refine ⟨hnil, ?_⟩
    intro r2 s hC
    obtain ⟨fs1, hfl, _, rfl⟩ := Compile_ok_inv _ r2 _ s rfl hC
    have hne : nestedFrom 0 F ≠ [] := by rw [← decodedRSQL_indexes m F V]; exact hnil
    obtain ⟨n, fs2, _, hfs, hr⟩ := falttenNestedRSQL_arr_inv _ _ _ _ _ hfl
    cases hfs
    rw [decodedRSQL_indexes] at hr
    have hmem : 1 ∈ nestedFrom 0 F := by
      rcases flattenRange_ok_indexes _ F fs1 hne hr with h1 | h1 <;> rw [h1] <;> simp
    obtain ⟨t, ht⟩ := flattenRange_ok_str _ _ F fs1 hr hmem
    refine ⟨⟨_, t, rfl, rfl, ht⟩, ?_⟩
    have hp := falttenNestedRSQL_str (jdepth (.arr fs1)) fs1
      (decodedRSQL m F V).nestedRSQLIndexes t ht hnil
    simp only [Compile, hp]

/-- C18 on `["AND", ["b", ["OR", ["c"], [2]]], [2, ""]]`: the first `Compile` returns
`(b = 2) AND ((c = 2))`, the second panics. -/
theorem compile_twice_witness :
    (Parse (NewRestfulSQLParser (.value (.arr oneNested)))
      = ({ Query := some (decodedRSQL "AND" oneNestedFields [jnum "2", .str ""]),
           rawQuery := .value (.arr oneNested) },
         .ok (decodedRSQL "AND" oneNestedFields [jnum "2", .str ""]))) ∧
    ((Compile { Query := some (decodedRSQL "AND" oneNestedFields [jnum "2", .str ""]),
                rawQuery := .value (.arr oneNested) }).map Prod.snd
      = some (.ok "(b = 2) AND ((c = 2))")) ∧
    (((decodedRSQL "AND" oneNestedFields [jnum "2", .str ""]).nestedRSQLIndexes = [] ∧
      ∃ r2 s, Compile { Query := some (decodedRSQL "AND" oneNestedFields [jnum "2", .str ""]),
                        rawQuery := .value (.arr oneNested) } = some (r2, .ok s) ∧
        Compile r2 = some (r2, .ok s)) ∨
    ((decodedRSQL "AND" oneNestedFields [jnum "2", .str ""]).nestedRSQLIndexes ≠ [] ∧
      ∀ r2 s, Compile { Query := some (decodedRSQL "AND" oneNestedFields [jnum "2", .str ""]),
                        rawQuery := .value (.arr oneNested) } = some (r2, .ok s) →
        (∃ q2 t, r2.Query = some q2 ∧
          q2.nestedRSQLIndexes
            = (decodedRSQL "AND" oneNestedFields [jnum "2", .str ""]).nestedRSQLIndexes ∧
          q2.Fields[1]? = some (.str t)) ∧
        Compile r2 = some (r2, .error .panic))) :=
  ⟨rfl, rfl, compile_twice (.value (.arr oneNested)) _ _ rfl⟩

/-! ### Trees nested only at index 1 -/

/-- Field names are written as JSON strings. -/
theorem listToJSON_leaves (names : List String) :
    FieldEntry.listToJSON (names.map .Leaf) = names.map JVal.str := by
  induction names with
  | nil => rfl
  | cons a rest ih => simp [FieldEntry.listToJSON, FieldEntry.toJSON, ih]

/-- The reference fragments of field names are the leaf fragments, pairwise. -/
theorem specFragments_leaves (names : List String) :
    ∀ vs : List JVal,
      specFragments (names.map .Leaf) vs = List.zipWith specLeafFragment names vs := by
  induction names with
  | nil => intro vs; simp [specFragments]
  | cons a rest ih =>
    intro vs
    cases vs with
    | nil => simp [specFragments]
    | cons v vs1 => simp [specFragments, specFragment, ih]

/-- Well-formed pairs of field names and values have equal lengths. -/
theorem length_of_pairsWellFormed_leaves (names : List String) :
    ∀ vs : List JVal, FieldEntry.pairsWellFormed (names.map .Leaf) vs = true →
      names.length = vs.length := by
  induction names with
  | nil =>
    intro vs h
    cases vs with
    | nil => rfl
    | cons v vs1 => simp [FieldEntry.pairsWellFormed] at h
  | cons a rest ih =>
    intro vs h
    cases vs with
    | nil => simp [FieldEntry.pairsWellFormed] at h
    | cons v vs1 =>
      simp only [List.map_cons, FieldEntry.pairsWellFormed, Bool.and_eq_true] at h
      simp [ih vs1 h.2]

/-- The detector classifies no field name. -/
theorem nestedFrom_names (names : List String) :
    ∀ i : Nat, nestedFrom i (names.map JVal.str) = [] := by
  induction names with
  | nil => intro i; rfl
  | cons a rest ih => intro i; simp [nestedFrom, classifiedNested, ih]

/-- The loop iteration for index 1 when slot 1 holds a triple whose own fields flatten to
`F1`: the slot receives the string built from the triple's mode, `F1` and its values. -/
theorem flattenBody_compiles (recur : JVal → List Nat → Option (JVal × Option Fault))
    (fs : List JVal) (m : String) (F V F1 : List JVal) (s : String)
    (h1 : fs[1]? = some (.arr [.str m, .arr F, .arr V]))
    (hrec : (if (nestedFrom 0 F).length > 0 then recur (.arr F) (nestedFrom 0 F)
              else some (.arr F, none)) = some (.arr F1, none))
    (hlen : F1.length = V.length) (hb : buildString m F1 V = .ok s) :
    flattenBody recur fs 1 = some (fs.set 1 (.str s), none) := by
  have hlt : 1 < fs.length := by
    by_contra hge
    rw [List.getElem?_eq_none (by omega)] at h1
    cases h1
  have hu : unmarshalToRSQLStruct [.str m, .arr F1, .arr V] = .ok (decodedRSQL m F1 V) :=
    unmarshal_triple m F1 V
  have hb1 : buildString (decodedRSQL m F1 V).Mode (decodedRSQL m F1 V).Fields
      (decodedRSQL m F1 V).Values = .ok s := hb
  have hc : checkLength (decodedRSQL m F1 V) = none := by
    simp [checkLength, decodedRSQL, hlen]
  unfold flattenBody
  simp only [h1, List.getElem?_cons_succ, List.getElem?_cons_zero, findNestedRSQL,
    findNestedLoop_eq, Nat.zero_add, List.nil_append, hrec, List.set_cons_succ,
    List.set_cons_zero, hu, hc, hb1, List.length_set, hlt, ↓reduceIte, List.set_set]

/-- On a well-formed tree nested only at index 1, flattening the fields over the indexes
the detector returns ends without error and leaves a slice of strings, as many as there
are values, whose leaf fragments are the reference fragments of the tree. -/
theorem flatten_nested_at_one (e : Expression) (hshape : NestedOnlyAtOne e) :
    e.wellFormed = true →
    ∃ (names1 : List String) (n : Nat),
      names1.length = e.values.length ∧
      falttenNestedRSQL n (.arr (FieldEntry.listToJSON e.fields))
          (nestedFrom 0 (FieldEntry.listToJSON e.fields))
        = some (.arr (names1.map JVal.str), none) ∧
      List.zipWith specLeafFragment names1 e.values = specFragments e.fields e.values := by
  induction hshape with
  | flat mode names values =>
    intro hwf
    simp only [Expression.wellFormed] at hwf
    refine ⟨names, 1, length_of_pairsWellFormed_leaves names values hwf, ?_, ?_⟩
    · simp [Expression.fields, listToJSON_leaves, nestedFrom_names, falttenNestedRSQL,
        flattenRange]
    · simp [Expression.fields, Expression.values, specFragments_leaves]
  | nest mode first child names values _ ih =>
    intro hwf
    simp only [Expression.wellFormed] at hwf
    match values, hwf with
    | [], hwf => simp [FieldEntry.pairsWellFormed] at hwf
    | [_], hwf => simp [FieldEntry.pairsWellFormed] at hwf
    | v0 :: v1 :: vs, hwf =>
      simp only [FieldEntry.pairsWellFormed, Bool.and_eq_true] at hwf
      obtain ⟨_, ⟨hv1, hcwf⟩, hrest⟩ := hwf
      have hv1s : v1 = .str "" := by
        cases v1 with
        | str t => simp at hv1; rw [hv1]
        | null => simp at hv1
        | bool b => simp at hv1
        | num k => simp at hv1
        | arr xs => simp at hv1
        | obj kvs => simp at hv1
      subst hv1s
      obtain ⟨namesC, nC, hlenC, hflC, hzC⟩ := ih hcwf
      obtain ⟨mC, fieldsC, valuesC⟩ := child
      simp only [Expression.fields, Expression.values] at hlenC hflC hzC
      have hlenN := length_of_pairsWellFormed_leaves names vs hrest
      have hbC : buildString mC (namesC.map JVal.str) valuesC = .ok (specRender (.mk mC fieldsC valuesC)) := by
        have := buildQueries_flat namesC [] valuesC hlenC
        simp only [List.nil_append, List.length_nil] at this
        simp [buildString, this, specRender, hzC]
      have hrec : (if (nestedFrom 0 (FieldEntry.listToJSON fieldsC)).length > 0
            then falttenNestedRSQL nC (.arr (FieldEntry.listToJSON fieldsC))
              (nestedFrom 0 (FieldEntry.listToJSON fieldsC))
            else some (.arr (FieldEntry.listToJSON fieldsC), none))
          = some (.arr (namesC.map JVal.str), none) := by
        by_cases hpos : (nestedFrom 0 (FieldEntry.listToJSON fieldsC)).length > 0
        · simp only [hpos, ↓reduceIte, hflC]
        · have hnil : nestedFrom 0 (FieldEntry.listToJSON fieldsC) = [] := by
            cases hx : nestedFrom 0 (FieldEntry.listToJSON fieldsC) with
            | nil => rfl
            | cons a l => rw [hx] at hpos; simp at hpos
          rw [hnil] at hflC
          simp only [hpos, ↓reduceIte]
          cases nC with
          | zero => simp [falttenNestedRSQL] at hflC
          | succ k =>
            simp only [falttenNestedRSQL, flattenRange, Option.some.injEq, Prod.mk.injEq,
              and_true] at hflC
            rw [hflC]
      have hbody := flattenBody_compiles (falttenNestedRSQL nC)
        (FieldEntry.listToJSON (.Leaf first :: .Nested (.mk mC fieldsC valuesC)
          :: names.map .Leaf))
        mC (FieldEntry.listToJSON fieldsC) valuesC (namesC.map JVal.str)
        (specRender (.mk mC fieldsC valuesC))
        (by simp [FieldEntry.listToJSON, FieldEntry.toJSON, Expression.toJSON])
        hrec (by simpa using hlenC) hbC
      refine ⟨first :: specRender (.mk mC fieldsC valuesC) :: names, nC + 1, ?_, ?_, ?_⟩
      · simp [Expression.values, hlenN]
      · have hidx : nestedFrom 0 (FieldEntry.listToJSON (.Leaf first
            :: .Nested (.mk mC fieldsC valuesC) :: names.map .Leaf)) = [1] := by
          simp [FieldEntry.listToJSON, FieldEntry.toJSON, Expression.toJSON, nestedFrom,
            classifiedNested, JVal.isArray, listToJSON_leaves, nestedFrom_names]
        show falttenNestedRSQL (nC + 1)
            (.arr (FieldEntry.listToJSON (.Leaf first :: .Nested (.mk mC fieldsC valuesC)
              :: names.map .Leaf)))
            (nestedFrom 0 (FieldEntry.listToJSON (.Leaf first
              :: .Nested (.mk mC fieldsC valuesC) :: names.map .Leaf))) = _
        rw [hidx]
        simp only [falttenNestedRSQL, flattenRange, hbody]
        simp [FieldEntry.listToJSON, FieldEntry.toJSON, listToJSON_leaves]
      · simp [Expression.fields, Expression.values, specFragments, specFragment,
          specLeafFragment, specFragments_leaves]

/-- C16: for every well-formed tree in which, at every level, the only nested triple sits
at index 1 and all other fields are names, `Parse` succeeds and `Compile` returns, without
error, the reference rendering of the tree. -/
theorem compile_nested_at_one (e : Expression) (hshape : NestedOnlyAtOne e)
    (hwf : e.wellFormed = true) :
    ∃ rsql r1, Parse (NewRestfulSQLParser (.value e.toJSON)) = (r1, .ok rsql) ∧
      ∃ r2, Compile r1 = some (r2, .ok (specRender e)) := by
  obtain ⟨names1, n, hlen1, hfl, hz⟩ := flatten_nested_at_one e hshape hwf
  obtain ⟨m, fields, values⟩ := e
  simp only [Expression.fields, Expression.values] at hlen1 hfl hz
  have hcan := falttenNestedRSQL_canonical n _ _ _ hfl
  have hlenF : (FieldEntry.listToJSON fields).length = values.length := by
    obtain ⟨k, fs1, _, hfs, hr⟩ := falttenNestedRSQL_arr_inv _ _ _ _ _ hfl
    have := (flattenRange_frame _ _ _ _ hr).1
    simp only [JVal.arr.injEq] at hfs
    rw [← hfs] at this
    simp only [List.length_map] at this
    omega
  have hb : buildString m (names1.map JVal.str) values = .ok (specRender (.mk m fields values)) := by
    have := buildQueries_flat names1 [] values hlen1
    simp only [List.nil_append, List.length_nil] at this
    simp [buildString, this, specRender, hz]
  refine ⟨_, _, Parse_triple_any none m (FieldEntry.listToJSON fields) values hlenF, ?_⟩
  have hcan1 : falttenNestedRSQL
      (jdepth (.arr (decodedRSQL m (FieldEntry.listToJSON fields) values).Fields) + 1)
      (.arr (decodedRSQL m (FieldEntry.listToJSON fields) values).Fields)
      (decodedRSQL m (FieldEntry.listToJSON fields) values).nestedRSQLIndexes
      = some (.arr (names1.map JVal.str), none) := by
    rw [decodedRSQL_indexes]
    exact hcan
  have hb1 : buildString (decodedRSQL m (FieldEntry.listToJSON fields) values).Mode
      (names1.map JVal.str) (decodedRSQL m (FieldEntry.listToJSON fields) values).Values
      = .ok (specRender (.mk m fields values)) := hb
  simp only [Compile, hcan1, hb1]
  exact ⟨_, rfl⟩

/-- C16 on the tree of the three-level query of `TestCompile`. -/
theorem compile_nested_at_one_witness :
    NestedOnlyAtOne threeLevelsTree ∧ threeLevelsTree.wellFormed = true ∧
    specRender threeLevelsTree = "(a = 10) AND ((b = 2) AND ((c = 2) OR (d = 3)))" ∧
    ∃ rsql r1, Parse (NewRestfulSQLParser (.value threeLevelsTree.toJSON)) = (r1, .ok rsql) ∧
      ∃ r2, Compile r1 = some (r2, .ok (specRender threeLevelsTree)) :=
  have hshape : NestedOnlyAtOne threeLevelsTree :=
    NestedOnlyAtOne.nest "AND" "a" _ [] _
      (NestedOnlyAtOne.nest "AND" "b" _ [] _ (NestedOnlyAtOne.flat "OR" ["c", "d"] _))
  ⟨hshape, by decide, by decide, compile_nested_at_one threeLevelsTree hshape (by decide)⟩

end Restfulsql
